import Mathlib

/-!
# libmp4: logger and demuxer test program

A shallow embedding of `ulog/libulog/src/ulog.c` and `test/mp4_demux_test.c`,
followed by the properties proved about them.

Conventions of the embedding:

* C `int` values are `Int`; `unsigned int`, `uint32_t` and `uint64_t` values are
  `Nat`, reduced `% 2 ^ 32` or `% 2 ^ 64` wherever the C expression can wrap.
* Standard output is a list of the `printf` calls made, each with its format
  string (copied from the source) and its arguments, oldest first.
* The demuxer library behind `libmp4.h` is an arbitrary state machine over a
  session type `σ`: every accessor maps the session to its return value, the
  contents of its out-parameters after the call, and the next session.
-/

set_option autoImplicit false

/-- An argument handed to a `printf`-family call: an `int`, an unsigned integer, a
string pointer (`none` for `NULL` or an entry outside a table), or the `double`
value `v / 1000.`. -/
inductive PArg where
  | int (v : Int)
  | uint (v : Nat)
  | str (v : Option String)
  | kHz (v : Nat)
  deriving DecidableEq, Repr

/-! ## ulog.c -/

namespace Ulog

/-- One call writing to standard output. -/
inductive Output where
  | printf (fmt : String) (args : List PArg)
  | vprintf (fmt : String) (args : List PArg)
  deriving DecidableEq, Repr

/-- The process state `ulog.c` touches: the global `global_log_level` (declared in
`ulog.h`) and what has been written to standard output. -/
structure State where
  global_log_level : Int
  stdout : List Output
  deriving DecidableEq, Repr

/-- `void ulog_set_global_log_level(int level)`. -/
def ulog_set_global_log_level (level : Int) (s : State) : State :=
  { s with global_log_level := level }

/-- `int ulog_get_global_log_level()`: the returned value and the state after. -/
def ulog_get_global_log_level (s : State) : Int × State :=
  (s.global_log_level, s)

/-- `void ulog_log(int level, const char *fmt, ...)`. `time_buffer` is what
`strftime` left in the local buffer for `localtime(time(NULL))`. -/
def ulog_log (time_buffer : String) (level : Int) (fmt : String) (args : List PArg)
    (s : State) : State :=
  if level > s.global_log_level then
    s
  else
    { s with stdout := s.stdout ++
        [Output.printf "[%s]" [PArg.str (some time_buffer)],
         Output.vprintf fmt args,
         Output.printf "\n" []] }

/-- The output line of one emitted message: timestamp in brackets, the formatted
message, newline. -/
def log_line (time_buffer fmt : String) (args : List PArg) : List Output :=
  [Output.printf "[%s]" [PArg.str (some time_buffer)],
   Output.vprintf fmt args,
   Output.printf "\n" []]

end Ulog

/-! ## mp4_demux_test.c -/

namespace Mp4DemuxTest

/-- Modelled from the spec: the enumeration `mp4_track_type_t` of `libmp4.h` (absent
from the sources), with the track kinds of the data model. -/
inductive mp4_track_type where
  | MP4_TRACK_TYPE_UNKNOWN
  | MP4_TRACK_TYPE_VIDEO
  | MP4_TRACK_TYPE_AUDIO
  | MP4_TRACK_TYPE_HINT
  | MP4_TRACK_TYPE_METADATA
  | MP4_TRACK_TYPE_TEXT
  | MP4_TRACK_TYPE_CHAPTERS
  deriving DecidableEq, Repr

open mp4_track_type

/-- Modelled from the spec: the struct `mp4_track_info_t` of `libmp4.h` (absent from
the sources), with the fields the test program reads. -/
structure mp4_track_info_t where
  id : Nat
  type : mp4_track_type
  duration : Nat
  video_codec : Nat
  video_width : Nat
  video_height : Nat
  audio_codec : Nat
  audio_channel_count : Nat
  audio_sample_size : Nat
  audio_sample_rate : Nat
  has_metadata : Bool
  metadata_content_encoding : Option String
  metadata_mime_format : Option String
  deriving DecidableEq, Repr

/-- Modelled from the spec: the struct `mp4_track_sample_t` of `libmp4.h` (absent
from the sources), with the fields the test program reads. -/
structure mp4_track_sample_t where
  sample_size : Nat
  metadata_size : Nat
  sample_dts : Nat
  next_sample_dts : Nat
  deriving DecidableEq, Repr

/-- Modelled from the spec: the constant `MP4_METADATA_VALUE_TYPE_MAX` of `libmp4.h`
(absent from the sources), the number of well-known metadata keys of the
`MetadataSet` enumeration. -/
def MP4_METADATA_VALUE_TYPE_MAX : Nat := 10

/-- The `<inttypes.h>` conversion for `uint32_t`. -/
def PRIu32 : String := "u"

/-- The `<inttypes.h>` conversion for `uint64_t`. -/
def PRIu64 : String := "lu"

/-- `static const char *video_codec_type[MP4_VIDEO_CODEC_MAX]`. -/
def video_codec_type : List String := ["unknown", "H.264"]

/-- `static const char *audio_codec_type[MP4_AUDIO_CODEC_MAX]`. -/
def audio_codec_type : List String := ["unknown", "AAC"]

/-- `static const char *metadata_value_name[MP4_METADATA_VALUE_TYPE_MAX]`. -/
def metadata_value_name : List String :=
  ["artist", "title", "date", "location", "comment", "copyright", "maker", "model",
   "version", "encoder"]

/-- `static const char *cover_type[MP4_METADATA_COVER_TYPE_MAX]`. -/
def cover_type : List String := ["JPEG", "PNG", "BMP"]

/-- The demuxer library and the allocator as the test program sees them. Each
accessor takes the session and its arguments and gives its return value, the
contents of its out-parameters after the call, and the session after the call.
A `Bool` argument standing for a buffer pointer is `true` when the pointer is
`NULL`. -/
structure Libmp4 (σ : Type) where
  mp4_demux_open : String → Option σ
  mp4_demux_close : σ → Int
  mp4_demux_get_track_count : σ → Int × σ
  mp4_demux_get_track_info : σ → Int → (Int × mp4_track_info_t) × σ
  mp4_demux_get_track_next_sample :
    σ → Nat → Bool → Nat → Bool → Nat → (Int × mp4_track_sample_t) × σ
  mp4_demux_get_metadata_values : σ → (Int × List (Option String)) × σ
  mp4_demux_get_metadata_cover : σ → Bool → Nat → (Int × Nat × Nat) × σ
  mp4_demux_get_chapters : σ → (Int × Nat × List Nat × List (Option String)) × σ
  malloc : Nat → Bool

/-- What the test program does that is visible from outside: library calls with
their arguments and results, allocations, and output. -/
inductive Event where
  | open_call (path : String) (opened : Bool)
  | close_call (ret : Int)
  | get_track_count (ret : Int)
  | get_track_info (index : Int) (ret : Int) (tk : mp4_track_info_t)
  | get_track_next_sample (id : Nat) (ret : Int) (sample : mp4_track_sample_t)
  | get_metadata_values (ret : Int)
  | get_metadata_cover (buffer_null : Bool) (capacity : Nat) (ret : Int)
      (cover_size : Nat)
  | get_chapters (ret : Int)
  | malloc (size : Nat) (ok : Bool)
  | printf (fmt : String) (args : List PArg)
  | fprintf_stderr (fmt : String) (args : List PArg)
  deriving DecidableEq, Repr

/-- Subtraction of `uint64_t` operands. -/
def sub_u64 (a b : Nat) : Nat := (a % 2 ^ 64 + (2 ^ 64 - b % 2 ^ 64)) % 2 ^ 64

/-- `(tk.duration + 500000) / 1000000`, in `uint64_t`. -/
def rounded_seconds (duration : Nat) : Nat := (duration + 500000) % 2 ^ 64 / 1000000

/-- `unsigned int hrs = (unsigned int)((tk.duration + 500000) / 1000000 / 60 / 60)`. -/
def duration_hrs (duration : Nat) : Nat :=
  ((duration + 500000) % 2 ^ 64 / 1000000 / 60 / 60) % 2 ^ 32

/-- `unsigned int min = (unsigned int)((tk.duration + 500000) / 1000000 / 60 - hrs * 60)`;
the product is an `unsigned int`, the difference a `uint64_t`. -/
def duration_min (duration : Nat) : Nat :=
  (sub_u64 ((duration + 500000) % 2 ^ 64 / 1000000 / 60)
    (duration_hrs duration * 60 % 2 ^ 32)) % 2 ^ 32

/-- `unsigned int sec = (unsigned int)((tk.duration + 500000) / 1000000
- hrs * 60 * 60 - min * 60)`; the products are `unsigned int`, the differences
`uint64_t`. -/
def duration_sec (duration : Nat) : Nat :=
  (sub_u64
    (sub_u64 ((duration + 500000) % 2 ^ 64 / 1000000)
      (duration_hrs duration * 60 % 2 ^ 32 * 60 % 2 ^ 32))
    (duration_min duration * 60 % 2 ^ 32)) % 2 ^ 32

/-- The `switch (tk.type)` of `mp4_demux_print_tracks`. -/
def print_track_type (tk : mp4_track_info_t) : List Event :=
  match tk.type with
  | MP4_TRACK_TYPE_VIDEO =>
    [Event.printf "  type: video\n" [],
     Event.printf "  codec: %s\n" [PArg.str video_codec_type[tk.video_codec]?],
     Event.printf ("  dimensions=%" ++ PRIu32 ++ "x%" ++ PRIu32 ++ "\n")
       [PArg.uint tk.video_width, PArg.uint tk.video_height]] ++
    (if tk.has_metadata then
      [Event.printf "  metadata: present\n" [],
       Event.printf "  metadata content encoding: %s\n"
         [PArg.str tk.metadata_content_encoding],
       Event.printf "  metadata mime format: %s\n" [PArg.str tk.metadata_mime_format]]
     else [])
  | MP4_TRACK_TYPE_AUDIO =>
    [Event.printf "  type: audio\n" [],
     Event.printf "  codec: %s\n" [PArg.str audio_codec_type[tk.audio_codec]?],
     Event.printf ("  channels: %" ++ PRIu32 ++ "\n") [PArg.uint tk.audio_channel_count],
     Event.printf ("  samples: %" ++ PRIu32 ++ "bit @ %.2fkHz\n")
       [PArg.uint tk.audio_sample_size, PArg.kHz tk.audio_sample_rate]]
  | MP4_TRACK_TYPE_HINT => [Event.printf "  type: hint\n" []]
  | MP4_TRACK_TYPE_METADATA =>
    [Event.printf "  type: metadata\n" [],
     Event.printf "  content encoding: %s\n" [PArg.str tk.metadata_content_encoding],
     Event.printf "  mime format: %s\n" [PArg.str tk.metadata_mime_format]]
  | MP4_TRACK_TYPE_TEXT => [Event.printf "  type: text\n" []]
  | MP4_TRACK_TYPE_CHAPTERS => [Event.printf "  type: chapters\n" []]
  | MP4_TRACK_TYPE_UNKNOWN => [Event.printf "  type: unknown\n" []]

/-- The body of the `if (ret == 0)` of `mp4_demux_print_tracks` for track `i`. -/
def print_track (i : Int) (tk : mp4_track_info_t) : List Event :=
  [Event.printf "Track #%d ID=%d\n" [PArg.int i, PArg.uint tk.id]] ++
  print_track_type tk ++
  [Event.printf ("  duration=%" ++ PRIu64 ++ " (%02d:%02d:%02d)\n")
     [PArg.uint tk.duration, PArg.uint (duration_hrs tk.duration),
      PArg.uint (duration_min tk.duration), PArg.uint (duration_sec tk.duration)],
   Event.printf "\n" []]

/-- The `for (i = 0; i < count; i++)` loop of `mp4_demux_print_tracks`, with
`todo` iterations left and the next one at index `i`. -/
def print_tracks_loop {σ : Type} (api : Libmp4 σ) : Nat → Int → σ → List Event × σ
  | 0, _, demux => ([], demux)
  | todo + 1, i, demux =>
    let r := api.mp4_demux_get_track_info demux i
    let ret := r.1.1
    let tk := r.1.2
    let rest := print_tracks_loop api todo (i + 1) r.2
    (Event.get_track_info i ret tk :: (if ret = 0 then print_track i tk else []) ++ rest.1,
     rest.2)

/-- `static void mp4_demux_print_tracks(struct mp4_demux *demux)`. -/
def mp4_demux_print_tracks {σ : Type} (api : Libmp4 σ) (demux : σ) : List Event × σ :=
  let c := api.mp4_demux_get_track_count demux
  let count := c.1
  let r := print_tracks_loop api count.toNat 0 c.2
  (Event.get_track_count count :: r.1, r.2)

/-- The `for` loop over the metadata values of `mp4_demux_print_metadata`. -/
def print_metadata_values (values : List (Option String)) : List Event :=
  (List.range MP4_METADATA_VALUE_TYPE_MAX).filterMap fun i =>
    match values.getD i none with
    | some v =>
      some (Event.printf "    %s: %s\n" [PArg.str metadata_value_name[i]?, PArg.str (some v)])
    | none => none

/-- The first half of `mp4_demux_print_metadata`: the metadata values. -/
def print_metadata_part {σ : Type} (api : Libmp4 σ) (demux : σ) : List Event × σ :=
  let r := api.mp4_demux_get_metadata_values demux
  let ret := r.1.1
  let values := r.1.2
  (Event.get_metadata_values ret ::
    (if ret = 0 then
      [Event.printf "Metadata\n" []] ++ print_metadata_values values ++ [Event.printf "\n" []]
     else []),
   r.2)

/-- The second half of `mp4_demux_print_metadata`: the cover. -/
def print_cover_part {σ : Type} (api : Libmp4 σ) (demux : σ) : List Event × σ :=
  let r := api.mp4_demux_get_metadata_cover demux true 0
  let ret := r.1.1
  let cover_size := r.1.2.1
  let first := Event.get_metadata_cover true 0 ret cover_size
  if ret = 0 ∧ cover_size > 0 then
    let cover_buffer_size := cover_size
    if api.malloc cover_buffer_size then
      let r2 := api.mp4_demux_get_metadata_cover r.2 false cover_buffer_size
      let ret2 := r2.1.1
      let type := r2.1.2.2
      ([first, Event.malloc cover_buffer_size true,
        Event.get_metadata_cover false cover_buffer_size ret2 r2.1.2.1] ++
        (if ret2 = 0 then [Event.printf "Cover present (%s)\n" [PArg.str cover_type[type]?]]
         else []),
       r2.2)
    else
      ([first, Event.malloc cover_buffer_size false], r.2)
  else
    ([first], r.2)

/-- `static void mp4_demux_print_metadata(struct mp4_demux *demux)`. -/
def mp4_demux_print_metadata {σ : Type} (api : Libmp4 σ) (demux : σ) : List Event × σ :=
  let a := print_metadata_part api demux
  let b := print_cover_part api a.2
  (a.1 ++ b.1, b.2)

/-- `static void mp4_demux_print_chapters(struct mp4_demux *demux)`. -/
def mp4_demux_print_chapters {σ : Type} (api : Libmp4 σ) (demux : σ) : List Event × σ :=
  let r := api.mp4_demux_get_chapters demux
  let ret := r.1.1
  let chaptersCount := r.1.2.1
  let chaptersTime := r.1.2.2.1
  let chaptersName := r.1.2.2.2
  (Event.get_chapters ret ::
    (if ret = 0 then
      [Event.printf "Chapters\n" []] ++
      (List.range chaptersCount).map (fun i =>
        Event.printf ("    Chapter #%d time=%" ++ PRIu64 ++ " '%s'\n")
          [PArg.uint ((i + 1) % 2 ^ 32), PArg.uint (chaptersTime.getD i 0),
           PArg.str (chaptersName.getD i none)]) ++
      [Event.printf "\n" []]
     else []),
   r.2)

/-- The first loop of `mp4_demux_print_frames`: the search for a video track, with
`todo` iterations left and the next one at index `i`. Gives the `id` found, if
any. -/
def find_video_track {σ : Type} (api : Libmp4 σ) :
    Nat → Int → σ → (Option Nat × List Event) × σ
  | 0, _, demux => ((none, []), demux)
  | todo + 1, i, demux =>
    let r := api.mp4_demux_get_track_info demux i
    let ret := r.1.1
    let tk := r.1.2
    if ret = 0 ∧ tk.type = MP4_TRACK_TYPE_VIDEO then
      ((some tk.id, [Event.get_track_info i ret tk]), r.2)
    else
      let rest := find_video_track api todo (i + 1) r.2
      ((rest.1.1, Event.get_track_info i ret tk :: rest.1.2), rest.2)

/-- The `do ... while (sample.sample_size)` loop of `mp4_demux_print_frames`, run for
at most `fuel` iterations; `none` when the fuel runs out before the loop ends. -/
def print_frames_loop {σ : Type} (api : Libmp4 σ) (id : Nat) :
    Nat → Int → σ → Option (List Event × σ)
  | 0, _, _ => none
  | fuel + 1, i, demux =>
    let r := api.mp4_demux_get_track_next_sample demux id true 0 true 0
    let ret := r.1.1
    let sample := r.1.2
    let body :=
      Event.get_track_next_sample id ret sample ::
        (if ret = 0 then
          [Event.printf
            ("Frame #%d size=%06" ++ PRIu32 ++ " metadata_size=%" ++ PRIu32 ++ " dts=%" ++
              PRIu64 ++ " next_dts=%" ++ PRIu64 ++ "\n")
            [PArg.int i, PArg.uint sample.sample_size, PArg.uint sample.metadata_size,
             PArg.uint sample.sample_dts, PArg.uint sample.next_sample_dts]]
         else [])
    if sample.sample_size ≠ 0 then
      (print_frames_loop api id fuel (i + 1) r.2).map fun rest => (body ++ rest.1, rest.2)
    else
      some (body, r.2)

/-- `static void mp4_demux_print_frames(struct mp4_demux *demux)`, its second loop
run for at most `fuel` iterations. -/
def mp4_demux_print_frames {σ : Type} (api : Libmp4 σ) (fuel : Nat) (demux : σ) :
    Option (List Event × σ) :=
  let c := api.mp4_demux_get_track_count demux
  let count := c.1
  let f := find_video_track api count.toNat 0 c.2
  match f.1.1 with
  | none => some (Event.get_track_count count :: f.1.2, f.2)
  | some id =>
    (print_frames_loop api id fuel 0 f.2).map fun r =>
      (Event.get_track_count count :: f.1.2 ++ r.1 ++ [Event.printf "\n" []], r.2)

/-- `int main(int argc, char **argv)`: the status passed to `exit` and the events
up to there. -/
def main {σ : Type} (api : Libmp4 σ) (argv : List String) : Int × List Event :=
  let argc : Int := argv.length
  if argc < 2 then
    (-1, [Event.fprintf_stderr "usage: %s <file>\n" [PArg.str argv[0]?]])
  else
    let path := argv.getD 1 ""
    let demux := api.mp4_demux_open path
    let body : Int × List Event × Option σ :=
      match demux with
      | none =>
        (-1, [Event.open_call path false,
              Event.fprintf_stderr "mp4_demux_open() failed\n" []], none)
      | some d =>
        let t := mp4_demux_print_tracks api d
        let m := mp4_demux_print_metadata api t.2
        let c := mp4_demux_print_chapters api m.2
        (0, Event.open_call path true :: t.1 ++ m.1 ++ c.1, some c.2)
    match body.2.2 with
    | some d =>
      let ret := api.mp4_demux_close d
      if ret < 0 then
        (-1, body.2.1 ++ [Event.close_call ret,
                          Event.fprintf_stderr "mp4_demux_close() failed\n" []])
      else
        (ret, body.2.1 ++ [Event.close_call ret])
    | none => (body.1, body.2.1)

end Mp4DemuxTest

/-! ## Sample table decoder -/

namespace SampleTable

/-- Modelled from the spec: one `(count, delta)` run of the time-to-sample table
`stts`, read by the sample table decoder (absent from the sources). -/
structure stts_run where
  count : Nat
  delta : Nat
  deriving DecidableEq, Repr

/-- Modelled from the spec: one run of the sample-to-chunk table `stsc`, read by the
sample table decoder (absent from the sources). `first_chunk` counts from 1. -/
structure stsc_run where
  first_chunk : Nat
  samples_per_chunk : Nat
  sample_description_id : Nat
  deriving DecidableEq, Repr

/-- Modelled from the spec: the sample table decoder (absent from the sources)
expands the `stts` runs, in table order, into one delta per sample. -/
def stts_expand : List stts_run → List Nat
  | [] => []
  | r :: rs => List.replicate r.count r.delta ++ stts_expand rs

/-- Modelled from the spec: the sample table decoder (absent from the sources)
accumulates the deltas into a decode time per sample, starting from `t`, all
arithmetic in unsigned 64-bit. -/
def cumulative_times (t : Nat) : List Nat → List Nat
  | [] => []
  | d :: ds => t :: cumulative_times ((t + d) % 2 ^ 64) ds

/-- Modelled from the spec: step (3) of the sample table decoder (absent from the
sources), the cumulative decode time of every sample of a track. -/
def decode_times (runs : List stts_run) : List Nat :=
  cumulative_times 0 (stts_expand runs)

/-- Modelled from the spec: the sample count the `stsc` runs give chunk number
`chunk` (counted from 1) in the sample table decoder (absent from the sources):
a run covers the chunks from its `first_chunk` up to the next run's. -/
def samples_in_chunk : List stsc_run → Nat → Nat
  | [], _ => 0
  | [r], chunk => if r.first_chunk ≤ chunk then r.samples_per_chunk else 0
  | r :: r2 :: rs, chunk =>
    if r.first_chunk ≤ chunk ∧ chunk < r2.first_chunk then r.samples_per_chunk
    else samples_in_chunk (r2 :: rs) chunk

/-- Modelled from the spec: step (1) of the sample table decoder (absent from the
sources), the `stsc` runs expanded into a sample count per chunk. -/
def stsc_expand (stsc : List stsc_run) (chunk_count : Nat) : List Nat :=
  (List.range chunk_count).map fun c => samples_in_chunk stsc (c + 1)

/-- Modelled from the spec: the layout of the samples of one chunk in the sample
table decoder (absent from the sources): each sample at the byte cursor, which
then advances by the sample's size; `none` (`CorruptSampleTable`) when the
cursor overflows 64 bits. -/
def layout_chunk (cursor : Nat) : List Nat → Option (List Nat)
  | [] => some []
  | size :: sizes =>
    if cursor + size < 2 ^ 64 then
      (layout_chunk (cursor + size) sizes).map fun rest => cursor :: rest
    else none

/-- Modelled from the spec: step (2) of the sample table decoder (absent from the
sources) over the per-chunk sample counts, the chunk offsets and the sample
sizes; `none` (`CorruptSampleTable`) on an overflow or when the counts do not
add up to the number of sizes. -/
def layout_chunks : List Nat → List Nat → List Nat → Option (List Nat)
  | [], [], [] => some []
  | n :: counts, offset :: offsets, sizes =>
    if n ≤ sizes.length then
      match layout_chunk offset (sizes.take n), layout_chunks counts offsets (sizes.drop n) with
      | some a, some b => some (a ++ b)
      | _, _ => none
    else none
  | _, _, _ => none

/-- Modelled from the spec: steps (1) and (2) of the sample table decoder (absent
from the sources), the byte offset of every sample of a track. -/
def sample_offsets (stsc : List stsc_run) (chunk_offsets sizes : List Nat) :
    Option (List Nat) :=
  layout_chunks (stsc_expand stsc chunk_offsets.length) chunk_offsets sizes

/-- The first sample index of chunk `c` (counted from 0) for the given per-chunk
sample counts. -/
def chunk_start (counts : List Nat) (c : Nat) : Nat := (counts.take c).sum

end SampleTable


/-! ## Reading a run of the test program -/

namespace Mp4DemuxTest

open mp4_track_type

/-- The calls to `mp4_demux_get_metadata_cover` of a run, in order: whether the
buffer was `NULL`, the capacity given, the value returned and the cover size
reported. -/
def cover_calls (tr : List Event) : List (Bool × Nat × Int × Nat) :=
  tr.filterMap fun e =>
    match e with
    | Event.get_metadata_cover buffer_null capacity ret cover_size =>
      some (buffer_null, capacity, ret, cover_size)
    | _ => none

/-- Whether a run printed the "Cover present" line. -/
def cover_reported (tr : List Event) : Bool :=
  tr.any fun e =>
    match e with
    | Event.printf fmt _ => fmt == "Cover present (%s)\n"
    | _ => false

/-- The metadata lines `<name>: <value>` printed by a run, in order, each as its
name and its value. -/
def metadata_lines (tr : List Event) : List (Option String × Option String) :=
  tr.filterMap fun e =>
    match e with
    | Event.printf fmt [PArg.str name, PArg.str value] =>
      if fmt = "    %s: %s\n" then some (name, value) else none
    | _ => none

/-- The calls to `mp4_demux_get_track_next_sample` of a run, in order: the track
id given, the value returned and the sample reported. -/
def next_sample_calls (tr : List Event) : List (Nat × Int × mp4_track_sample_t) :=
  tr.filterMap fun e =>
    match e with
    | Event.get_track_next_sample id ret sample => some (id, ret, sample)
    | _ => none

/-- Whether an event is a `mp4_demux_get_track_info` call that returned 0 with
type video. -/
def is_video_hit (e : Event) : Bool :=
  match e with
  | Event.get_track_info _ ret tk => decide (ret = 0 ∧ tk.type = MP4_TRACK_TYPE_VIDEO)
  | _ => false

/-- Whether an event writes to the standard error stream. -/
def is_stderr (e : Event) : Bool :=
  match e with
  | Event.fprintf_stderr _ _ => true
  | _ => false

/-- Whether an event is a call to `mp4_demux_open` or `mp4_demux_close`. -/
def is_lifecycle (e : Event) : Bool :=
  match e with
  | Event.open_call _ _ => true
  | Event.close_call _ => true
  | _ => false

/-- Whether a run makes no call to `mp4_demux_open` or `mp4_demux_close`. -/
def no_lifecycle (tr : List Event) : Bool := tr.all fun e => !is_lifecycle e

/-- Whether an event is a track, sample, metadata, cover or chapter query. -/
def is_query (e : Event) : Bool :=
  match e with
  | Event.get_track_count _ => true
  | Event.get_track_info _ _ _ => true
  | Event.get_track_next_sample _ _ _ => true
  | Event.get_metadata_values _ => true
  | Event.get_metadata_cover _ _ _ _ => true
  | Event.get_chapters _ => true
  | _ => false

/-- Whether an event is a call into the demuxer library. -/
def is_library_call (e : Event) : Bool := is_lifecycle e || is_query e

/-- The number a `%d` conversion of `printf` prints for an argument: an `int` as it
is, an `unsigned int` as the `int` with the same 32 bits. -/
def printed_d : PArg → Int
  | PArg.int v => v
  | PArg.uint v => if v % 2 ^ 32 < 2 ^ 31 then ((v % 2 ^ 32 : Nat) : Int)
      else ((v % 2 ^ 32 : Nat) : Int) - 2 ^ 32
  | _ => 0

/-- The duration lines printed by a run, in order, each as the arguments of its
`printf` call: the duration, then `hrs`, `min` and `sec`. -/
def duration_lines (tr : List Event) : List (List PArg) :=
  tr.filterMap fun e =>
    match e with
    | Event.printf fmt args =>
      if fmt = "  duration=%" ++ PRIu64 ++ " (%02d:%02d:%02d)\n" then some args else none
    | _ => none

/-- The tracks whose `mp4_demux_get_track_info` call returned 0 in a run, in order. -/
def ok_tracks (tr : List Event) : List mp4_track_info_t :=
  tr.filterMap fun e =>
    match e with
    | Event.get_track_info _ ret tk => if ret = 0 then some tk else none
    | _ => none

/-- The track index of a `mp4_demux_get_track_info` call. -/
def track_info_index (e : Event) : Option Int :=
  match e with
  | Event.get_track_info index _ _ => some index
  | _ => none

/-- The first loop of `mp4_demux_print_frames` run from session `demux`: the id of
the video track found, if any, the `mp4_demux_get_track_info` calls made, and the
session after. -/
def video_track_search {σ : Type} (api : Libmp4 σ) (demux : σ) :
    (Option Nat × List Event) × σ :=
  let c := api.mp4_demux_get_track_count demux
  find_video_track api c.1.toNat 0 c.2

/-- Whether the successive `mp4_demux_get_track_next_sample` calls on track `id`,
from session `demux` on, return 0 and report the given samples one after the
other. -/
def yields {σ : Type} (api : Libmp4 σ) (id : Nat) : σ → List mp4_track_sample_t → Bool
  | _, [] => true
  | demux, x :: xs =>
    let r := api.mp4_demux_get_track_next_sample demux id true 0 true 0
    decide (r.1 = (0, x)) && yields api id r.2 xs

/-- A small demuxer used to exercise the test program: the file `a.mp4` opens; it
has an audio track and then a video track of id 7 lasting 3725499999 microseconds; the
video track gives three samples of 100 bytes and then zero-size samples; the
metadata hold an artist, a location and an encoder; the cover is 42 bytes of PNG.
The session is the number of samples read so far. -/
def demo_api : Libmp4 Nat where
  mp4_demux_open := fun path => if path = "a.mp4" then some 0 else none
  mp4_demux_close := fun _ => 0
  mp4_demux_get_track_count := fun s => (2, s)
  mp4_demux_get_track_info := fun s i =>
    ((if i = 0 ∨ i = 1 then 0 else -1,
      { id := if i = 1 then 7 else 3,
        type := if i = 1 then MP4_TRACK_TYPE_VIDEO else MP4_TRACK_TYPE_AUDIO,
        duration := 3725499999, video_codec := 1, video_width := 640, video_height := 480,
        audio_codec := 1, audio_channel_count := 2, audio_sample_size := 16,
        audio_sample_rate := 48000, has_metadata := false,
        metadata_content_encoding := none, metadata_mime_format := none }), s)
  mp4_demux_get_track_next_sample := fun s _ _ _ _ _ =>
    ((0, { sample_size := if s < 3 then 100 else 0, metadata_size := 0,
           sample_dts := 1000 * s, next_sample_dts := 1000 * (s + 1) }), s + 1)
  mp4_demux_get_metadata_values := fun s =>
    ((0, [some "me", none, none, some "here", none, none, none, none, none, some "enc"]), s)
  mp4_demux_get_metadata_cover := fun s buffer_null capacity =>
    ((if buffer_null ∨ 42 ≤ capacity then 0 else -1, 42, 1), s)
  mp4_demux_get_chapters := fun s => ((0, 2, [0, 10], [some "a", some "b"]), s)
  malloc := fun _ => true

/-- A video track lasting 10800000000000000000 microseconds, that is 3000000000 hours. -/
def demo_long_track : mp4_track_info_t :=
  { id := 1, type := MP4_TRACK_TYPE_VIDEO, duration := 10800000000000000000,
    video_codec := 1, video_width := 640, video_height := 480, audio_codec := 0,
    audio_channel_count := 0, audio_sample_size := 0, audio_sample_rate := 0,
    has_metadata := false, metadata_content_encoding := none,
    metadata_mime_format := none }

/-- The samples of non-zero size the video track of `demo_api` gives. -/
def demo_samples : List mp4_track_sample_t :=
  [{ sample_size := 100, metadata_size := 0, sample_dts := 0, next_sample_dts := 1000 },
   { sample_size := 100, metadata_size := 0, sample_dts := 1000, next_sample_dts := 2000 },
   { sample_size := 100, metadata_size := 0, sample_dts := 2000, next_sample_dts := 3000 }]

/-- The zero-size sample the video track of `demo_api` gives after them. -/
def demo_last : mp4_track_sample_t :=
  { sample_size := 0, metadata_size := 0, sample_dts := 3000, next_sample_dts := 4000 }

end Mp4DemuxTest

/-! ## Properties of ulog.c -/

namespace Ulog

/-- C1. Set/get round trip of the global log level: after
`ulog_set_global_log_level l`, from any state, `ulog_get_global_log_level`
returns `l`; after two successive sets it returns the level of the last one. -/
theorem set_get_round_trip (s : State) (l l2 : Int) :
    (ulog_get_global_log_level (ulog_set_global_log_level l s)).1 = l ∧
    (ulog_get_global_log_level
      (ulog_set_global_log_level l2 (ulog_set_global_log_level l s))).1 = l2 := by
  exact ⟨rfl, rfl⟩

/-- C2. Frame: `ulog_get_global_log_level` returns the state it was given, and
`ulog_log` leaves the global log level as it was, for every state, level and
message, emitted or not. -/
theorem log_level_frame (s : State) (time_buffer : String) (level : Int) (fmt : String)
    (args : List PArg) :
    (ulog_get_global_log_level s).2 = s ∧
    (ulog_get_global_log_level s).2.global_log_level = s.global_log_level ∧
    (ulog_log time_buffer level fmt args s).global_log_level = s.global_log_level := by
  refine ⟨rfl, rfl, ?_⟩
  unfold ulog_log
  split <;> rfl

/-- C8. Log filtering by level: `ulog_log` appends exactly one line (timestamp in
brackets, the formatted message, newline) to the output when `level` is at most
the global level and leaves the output untouched when `level` is above it; so a
message emitted at a global level is also emitted at every higher one. -/
theorem log_filtering (s : State) (time_buffer : String) (level : Int) (fmt : String)
    (args : List PArg) :
    (ulog_log time_buffer level fmt args s).stdout =
      (if level ≤ s.global_log_level then s.stdout ++ log_line time_buffer fmt args
       else s.stdout) ∧
    (log_line time_buffer fmt args).length = 3 ∧
    (∀ g : Int, s.global_log_level ≤ g →
      (ulog_log time_buffer level fmt args s).stdout
        = s.stdout ++ log_line time_buffer fmt args →
      (ulog_log time_buffer level fmt args (ulog_set_global_log_level g s)).stdout
        = s.stdout ++ log_line time_buffer fmt args) := by
  have key : ∀ t : State, (ulog_log time_buffer level fmt args t).stdout =
      (if level ≤ t.global_log_level then t.stdout ++ log_line time_buffer fmt args
       else t.stdout) := by
    intro t
    unfold ulog_log log_line
    by_cases h : level ≤ t.global_log_level
    · have h2 : ¬ level > t.global_log_level := not_lt.mpr h
      simp [h, h2]
    · have h2 : level > t.global_log_level := not_le.mp h
      simp [h, h2]
  refine ⟨key s, rfl, ?_⟩
  intro g hg hemit
  rw [key] at hemit ⊢
  by_cases h : level ≤ s.global_log_level
  · have h3 : level ≤ g := le_trans h hg
    simp [ulog_set_global_log_level, h3]
  · rw [if_neg h] at hemit
    have hlen := congrArg List.length hemit
    simp [log_line] at hlen

/-- A message of level 1 at global level 2 is emitted, is still emitted once the
global level is raised to 5, and a message of level 3 at global level 2 is not. -/
theorem log_filtering_witness :
    (2 : Int) ≤ 5 ∧
    (ulog_log "2016-11-07 10:00:00" 1 "open %s" [PArg.str (some "a.mp4")] ⟨2, []⟩).stdout
      = [] ++ log_line "2016-11-07 10:00:00" "open %s" [PArg.str (some "a.mp4")] ∧
    (ulog_log "2016-11-07 10:00:00" 1 "open %s" [PArg.str (some "a.mp4")]
        (ulog_set_global_log_level 5 ⟨2, []⟩)).stdout
      = [] ++ log_line "2016-11-07 10:00:00" "open %s" [PArg.str (some "a.mp4")] ∧
    (ulog_log "2016-11-07 10:00:00" 3 "open %s" [PArg.str (some "a.mp4")] ⟨2, []⟩).stdout
      = [] :=
  ⟨by decide, by decide,
   (log_filtering ⟨2, []⟩ "2016-11-07 10:00:00" 1 "open %s" [PArg.str (some "a.mp4")]).2.2 5
     (by decide) (by decide),
   by decide⟩

end Ulog

/-! ## Properties of mp4_demux_test.c -/

namespace Mp4DemuxTest

/-- Reduction of a `uint64_t` difference to `unsigned int`. -/
theorem sub_u64_mod (a b : Nat) :
    sub_u64 a b % 2 ^ 32 = (a + (2 ^ 32 - b % 2 ^ 32)) % 2 ^ 32 := by
  unfold sub_u64
  omega

theorem min_aux (a H r : Nat) (h : a = 60 * H + r) (hr : r < 60) :
    sub_u64 a (H % 2 ^ 32 * 60 % 2 ^ 32) % 2 ^ 32 = r := by
  rw [sub_u64_mod]
  omega

theorem sec_aux (T H m r : Nat) (h : T = 3600 * H + 60 * m + r) (hr : r < 60) :
    sub_u64 (sub_u64 T (H % 2 ^ 32 * 60 % 2 ^ 32 * 60 % 2 ^ 32)) (m * 60 % 2 ^ 32) % 2 ^ 32
      = r := by
  rw [sub_u64_mod, Nat.add_mod, sub_u64_mod]
  omega

theorem duration_hrs_eq (d : Nat) : duration_hrs d = rounded_seconds d / 3600 % 2 ^ 32 := by
  unfold duration_hrs rounded_seconds
  rw [Nat.div_div_eq_div_mul _ 60 60]

theorem duration_min_eq (d : Nat) : duration_min d = rounded_seconds d / 60 % 60 := by
  have h : duration_min d
      = sub_u64 (rounded_seconds d / 60) (duration_hrs d * 60 % 2 ^ 32) % 2 ^ 32 := rfl
  rw [h, duration_hrs_eq]
  apply min_aux
  · omega
  · omega

theorem duration_sec_eq (d : Nat) : duration_sec d = rounded_seconds d % 60 := by
  have h : duration_sec d
      = sub_u64 (sub_u64 (rounded_seconds d) (duration_hrs d * 60 % 2 ^ 32 * 60 % 2 ^ 32))
          (duration_min d * 60 % 2 ^ 32) % 2 ^ 32 := rfl
  rw [h, duration_hrs_eq, duration_min_eq]
  apply sec_aux
  · omega
  · omega

theorem duration_lines_append (a b : List Event) :
    duration_lines (a ++ b) = duration_lines a ++ duration_lines b := by
  simp [duration_lines, List.filterMap_append]

theorem ok_tracks_append (a b : List Event) :
    ok_tracks (a ++ b) = ok_tracks a ++ ok_tracks b := by
  simp [ok_tracks, List.filterMap_append]

/-- The lines printed for one track hold exactly one duration line, with the
duration and the computed `hrs`, `min` and `sec` as arguments. -/
theorem duration_lines_print_track (i : Int) (tk : mp4_track_info_t) :
    duration_lines (print_track i tk)
      = [[PArg.uint tk.duration, PArg.uint (duration_hrs tk.duration),
          PArg.uint (duration_min tk.duration), PArg.uint (duration_sec tk.duration)]] := by
  obtain ⟨id, type, duration, vc, vw, vh, ac, acc, ass, asr, hm, mce, mmf⟩ := tk
  cases type <;> cases hm <;>
    simp [duration_lines, print_track, print_track_type, PRIu32, PRIu64]

theorem ok_tracks_print_track (i : Int) (tk : mp4_track_info_t) :
    ok_tracks (print_track i tk) = [] := by
  obtain ⟨id, type, duration, vc, vw, vh, ac, acc, ass, asr, hm, mce, mmf⟩ := tk
  cases type <;> cases hm <;> rfl

theorem track_info_index_print_track (i : Int) (tk : mp4_track_info_t) :
    (print_track i tk).filterMap track_info_index = [] := by
  obtain ⟨id, type, duration, vc, vw, vh, ac, acc, ass, asr, hm, mce, mmf⟩ := tk
  cases type <;> cases hm <;> rfl

/-- The loop of `mp4_demux_print_tracks`: it asks for the tracks `i`, `i + 1`, ... in
order, once each, and prints one duration line for every call that returns 0. -/
theorem print_tracks_loop_duration {σ : Type} (api : Libmp4 σ) (todo : Nat) :
    ∀ (i : Int) (demux : σ),
      (print_tracks_loop api todo i demux).1.filterMap track_info_index
        = (List.range todo).map (fun (k : Nat) => i + (k : Int)) ∧
      duration_lines (print_tracks_loop api todo i demux).1
        = (ok_tracks (print_tracks_loop api todo i demux).1).map fun tk =>
            [PArg.uint tk.duration, PArg.uint (duration_hrs tk.duration),
             PArg.uint (duration_min tk.duration), PArg.uint (duration_sec tk.duration)] := by
  induction todo with
  | zero => intro i demux; exact ⟨rfl, rfl⟩
  | succ n ih =>
    intro i demux
    obtain ⟨ih1, ih2⟩ := ih (i + 1) (api.mp4_demux_get_track_info demux i).2
    unfold print_tracks_loop
    simp only []
    refine ⟨?_, ?_⟩
    · rw [List.filterMap_append, ih1, List.filterMap_cons]
      have hbody : (if (api.mp4_demux_get_track_info demux i).1.1 = 0 then
            print_track i (api.mp4_demux_get_track_info demux i).1.2
          else []).filterMap track_info_index = [] := by
        split
        · exact track_info_index_print_track _ _
        · rfl
      simp only [track_info_index, hbody, List.range_succ_eq_map, List.map_cons, List.map_map,
        Nat.cast_zero, add_zero, List.cons_append, List.nil_append, List.cons.injEq, true_and]
      apply List.map_congr_left
      intro k _
      simp only [Function.comp, Nat.succ_eq_add_one, Nat.cast_add, Nat.cast_one]
      omega
    · rw [duration_lines_append, ok_tracks_append, List.map_append, ih2,
        ← List.singleton_append, duration_lines_append, ok_tracks_append]
      by_cases h : (api.mp4_demux_get_track_info demux i).1.1 = 0
      · simp only [h, if_true, duration_lines_print_track, ok_tracks_print_track]
        simp [duration_lines, ok_tracks]
      · simp only [h, if_false]
        simp [duration_lines, ok_tracks, h]

/-- An `unsigned int` below 2^31 is printed by `%d` as it is. -/
theorem printed_d_small (v : Nat) (h : v < 2 ^ 31) : printed_d (PArg.uint v) = (v : Int) := by
  have hm : v % 2 ^ 32 = v := Nat.mod_eq_of_lt (by omega)
  have hc : v % 2 ^ 32 < 2 ^ 31 := by omega
  show (if v % 2 ^ 32 < 2 ^ 31 then ((v % 2 ^ 32 : Nat) : Int)
    else ((v % 2 ^ 32 : Nat) : Int) - 2 ^ 32) = (v : Int)
  rw [if_pos hc, hm]

/-- When the sum does not wrap and the hours are below 2^31, the three numbers
printed give the rounded duration in seconds. -/
theorem printed_hms (d : Nat) (h1 : d + 500000 < 2 ^ 64)
    (h2 : rounded_seconds d / 3600 < 2 ^ 31) :
    printed_d (PArg.uint (duration_hrs d)) * 3600
      + printed_d (PArg.uint (duration_min d)) * 60
      + printed_d (PArg.uint (duration_sec d))
      = (((d + 500000) / 1000000 : Nat) : Int) := by
  have hT : (d + 500000) / 1000000 = rounded_seconds d := by
    unfold rounded_seconds
    rw [Nat.mod_eq_of_lt h1]
  have hh : duration_hrs d = rounded_seconds d / 3600 := by
    rw [duration_hrs_eq]; omega
  rw [hT, hh, duration_min_eq, duration_sec_eq, printed_d_small _ h2,
    printed_d_small (rounded_seconds d / 60 % 60) (by omega),
    printed_d_small (rounded_seconds d % 60) (by omega)]
  omega

/-- C9, as the program prints it. `mp4_demux_print_tracks` asks for the tracks
0, ..., count - 1 in order and prints one duration line for every track whose
info call returns 0, with arguments the duration `d` and the computed `hrs`,
`min`, `sec`. For a 64-bit `d` and `T = ((d + 500000) mod 2^64) / 1000000`:
`min = (T / 60) mod 60`, `sec = T mod 60` (both below 60) and
`hrs = (T / 3600) mod 2^32`; when `d + 500000 < 2^64` and `T / 3600 < 2^31`, the
numbers `h`, `m`, `s` printed by `%02d:%02d:%02d` give
`h * 3600 + m * 60 + s = (d + 500000) / 1000000`. -/
theorem duration_printed {σ : Type} (api : Libmp4 σ) (demux : σ) :
    (mp4_demux_print_tracks api demux).1.filterMap track_info_index
      = (List.range (api.mp4_demux_get_track_count demux).1.toNat).map
          (fun (k : Nat) => (k : Int)) ∧
    duration_lines (mp4_demux_print_tracks api demux).1
      = (ok_tracks (mp4_demux_print_tracks api demux).1).map (fun tk =>
          [PArg.uint tk.duration, PArg.uint (duration_hrs tk.duration),
           PArg.uint (duration_min tk.duration), PArg.uint (duration_sec tk.duration)]) ∧
    ∀ d : Nat, d < 2 ^ 64 →
      duration_min d = rounded_seconds d / 60 % 60 ∧
      duration_sec d = rounded_seconds d % 60 ∧
      duration_hrs d = rounded_seconds d / 3600 % 2 ^ 32 ∧
      duration_min d < 60 ∧ duration_sec d < 60 ∧
      (d + 500000 < 2 ^ 64 → rounded_seconds d / 3600 < 2 ^ 31 →
        printed_d (PArg.uint (duration_hrs d)) * 3600
          + printed_d (PArg.uint (duration_min d)) * 60
          + printed_d (PArg.uint (duration_sec d))
          = (((d + 500000) / 1000000 : Nat) : Int)) := by
  obtain ⟨l1, l2⟩ := print_tracks_loop_duration api
    (api.mp4_demux_get_track_count demux).1.toNat 0 (api.mp4_demux_get_track_count demux).2
  refine ⟨?_, ?_, ?_⟩
  · unfold mp4_demux_print_tracks
    simp only [List.filterMap_cons, track_info_index]
    rw [l1]
    simp
  · unfold mp4_demux_print_tracks
    simp only []
    rw [← List.singleton_append, duration_lines_append, ok_tracks_append, l2]
    simp [duration_lines, ok_tracks]
  · intro d _
    have hh := duration_hrs_eq d
    have hm := duration_min_eq d
    have hs := duration_sec_eq d
    refine ⟨hm, hs, hh, ?_, ?_, ?_⟩
    · rw [hm]; omega
    · rw [hs]; omega
    · exact printed_hms d

/-- The duration line of the demonstration session: both tracks last 3725499999
microseconds and are printed as 01:02:05. -/
theorem duration_printed_witness :
    duration_lines (mp4_demux_print_tracks demo_api 0).1
      = [[PArg.uint 3725499999, PArg.uint 1, PArg.uint 2, PArg.uint 5],
         [PArg.uint 3725499999, PArg.uint 1, PArg.uint 2, PArg.uint 5]] ∧
    (3725499999 : Nat) < 2 ^ 64 ∧ 3725499999 + 500000 < 2 ^ 64 ∧
    rounded_seconds 3725499999 / 3600 < 2 ^ 31 ∧
    printed_d (PArg.uint (duration_hrs 3725499999)) * 3600
      + printed_d (PArg.uint (duration_min 3725499999)) * 60
      + printed_d (PArg.uint (duration_sec 3725499999))
      = (((3725499999 + 500000) / 1000000 : Nat) : Int) :=
  ⟨by decide, by decide, by decide, by decide,
   ((duration_printed demo_api 0).2.2 3725499999 (by decide)).2.2.2.2.2
     (by decide) (by decide)⟩

/-- C9, as stated, fails for a track lasting 10800000000000000000 microseconds: the
sum does not wrap and `T / 3600 = 3000000000` is below 2^32, `hrs` is 3000000000
and `min` and `sec` are 0, yet the hours printed by `%02d` are -1294967296, so the
line printed is not the duration in hours, minutes and seconds. -/
theorem duration_printed_refuted :
    (10800000000000000000 : Nat) + 500000 < 2 ^ 64 ∧
    rounded_seconds 10800000000000000000 / 3600 < 2 ^ 32 ∧
    duration_lines (print_track 0 demo_long_track)
      = [[PArg.uint 10800000000000000000, PArg.uint 3000000000, PArg.uint 0, PArg.uint 0]] ∧
    printed_d (PArg.uint 3000000000) = -1294967296 ∧
    printed_d (PArg.uint 3000000000) * 3600 + printed_d (PArg.uint 0) * 60
      + printed_d (PArg.uint 0)
      ≠ (((10800000000000000000 + 500000) / 1000000 : Nat) : Int) := by
  decide

end Mp4DemuxTest

namespace Mp4DemuxTest

theorem cover_calls_append (a b : List Event) :
    cover_calls (a ++ b) = cover_calls a ++ cover_calls b := by
  simp [cover_calls, List.filterMap_append]

theorem cover_reported_append (a b : List Event) :
    cover_reported (a ++ b) = (cover_reported a || cover_reported b) := by
  simp [cover_reported, List.any_append]

theorem print_metadata_values_printf (values : List (Option String)) :
    ∀ e ∈ print_metadata_values values,
      ∃ name v, e = Event.printf "    %s: %s\n" [PArg.str name, PArg.str (some v)] := by
  intro e he
  unfold print_metadata_values at he
  rw [List.mem_filterMap] at he
  obtain ⟨i, _, hi⟩ := he
  split at hi
  · rename_i v _
    exact ⟨_, v, (Option.some.inj hi).symm⟩
  · exact absurd hi (by simp)

theorem cover_calls_values (values : List (Option String)) :
    cover_calls (print_metadata_values values) = [] := by
  unfold cover_calls
  rw [List.filterMap_eq_nil_iff]
  intro e he
  obtain ⟨name, v, rfl⟩ := print_metadata_values_printf values e he
  rfl

theorem cover_reported_values (values : List (Option String)) :
    cover_reported (print_metadata_values values) = false := by
  unfold cover_reported
  rw [List.any_eq_false]
  intro e he
  obtain ⟨name, v, rfl⟩ := print_metadata_values_printf values e he
  simp

theorem cover_calls_metadata_part {σ : Type} (api : Libmp4 σ) (demux : σ) :
    cover_calls (print_metadata_part api demux).1 = [] := by
  unfold print_metadata_part
  by_cases h : (api.mp4_demux_get_metadata_values demux).1.1 = 0
  · simp only [h, if_true]
    rw [← List.singleton_append, cover_calls_append, cover_calls_append, cover_calls_append,
      cover_calls_values]
    rfl
  · simp only [h, if_false]
    rfl

theorem cover_reported_metadata_part {σ : Type} (api : Libmp4 σ) (demux : σ) :
    cover_reported (print_metadata_part api demux).1 = false := by
  unfold print_metadata_part
  by_cases h : (api.mp4_demux_get_metadata_values demux).1.1 = 0
  · simp only [h, if_true]
    rw [← List.singleton_append, cover_reported_append, cover_reported_append,
      cover_reported_append, cover_reported_values]
    decide
  · simp only [h, if_false]
    rfl

/-- C3. Cover query is size-then-fetch: in every run of `mp4_demux_print_metadata`
the first cover call has a null buffer and capacity 0; a second call is made
exactly when the first returned 0 with a cover size above 0 and the allocation
succeeded, it is the last one and its capacity is the size the first call
reported; "Cover present" is printed exactly when the second call is made and
returns 0; when the first call fails or reports size 0 there is no second call
and no cover is reported. -/
theorem cover_size_then_fetch {σ : Type} (api : Libmp4 σ) (demux : σ) :
    ∃ ret1 size1 rest,
      cover_calls (mp4_demux_print_metadata api demux).1 = (true, 0, ret1, size1) :: rest ∧
      (rest ≠ [] ↔ (ret1 = 0 ∧ 0 < size1 ∧ api.malloc size1 = true)) ∧
      (rest = [] ∨ ∃ ret2 size2, rest = [(false, size1, ret2, size2)]) ∧
      (cover_reported (mp4_demux_print_metadata api demux).1 = true ↔
        ∃ size2, rest = [(false, size1, 0, size2)]) ∧
      ((ret1 ≠ 0 ∨ size1 = 0) →
        rest = [] ∧ cover_reported (mp4_demux_print_metadata api demux).1 = false) := by
  unfold mp4_demux_print_metadata
  simp only [cover_calls_append, cover_reported_append, cover_calls_metadata_part,
    cover_reported_metadata_part, List.nil_append, Bool.false_or]
  generalize (print_metadata_part api demux).2 = s
  unfold print_cover_part
  generalize hr1 : api.mp4_demux_get_metadata_cover s true 0 = r1
  obtain ⟨⟨ret1, size1, type1⟩, s1⟩ := r1
  simp only []
  by_cases h1 : ret1 = 0 ∧ size1 > 0
  · by_cases h2 : api.malloc size1 = true
    · generalize hr2 : api.mp4_demux_get_metadata_cover s1 false size1 = r2
      obtain ⟨⟨ret2, size2, type2⟩, s2⟩ := r2
      by_cases h3 : ret2 = 0
      · refine ⟨ret1, size1, [(false, size1, ret2, size2)], ?_, ?_, ?_, ?_, ?_⟩
        · simp [h1, h2, h3, hr2, cover_calls]
        · simpa [h2] using h1
        · exact Or.inr ⟨_, _, rfl⟩
        · simp [h1, h2, h3, hr2, cover_reported]
        · intro h; exfalso; omega
      · refine ⟨ret1, size1, [(false, size1, ret2, size2)], ?_, ?_, ?_, ?_, ?_⟩
        · simp [h1, h2, h3, hr2, cover_calls]
        · simpa [h2] using h1
        · exact Or.inr ⟨_, _, rfl⟩
        · simp [h1, h2, h3, hr2, cover_reported]
        · intro h; exfalso; omega
    · refine ⟨ret1, size1, [], ?_, ?_, ?_, ?_, ?_⟩
      · simp [h1, h2, cover_calls]
      · simp [h2]
      · exact Or.inl rfl
      · simp [h1, h2, cover_reported]
      · intro _; simp [h1, h2, cover_reported]
  · refine ⟨ret1, size1, [], ?_, ?_, ?_, ?_, ?_⟩
    · simp [h1, cover_calls]
    · simpa using fun a b => (h1 ⟨a, b⟩).elim
    · exact Or.inl rfl
    · simp [h1, cover_reported]
    · intro _; simp [h1, cover_reported]

end Mp4DemuxTest

namespace Mp4DemuxTest

theorem metadata_lines_append (a b : List Event) :
    metadata_lines (a ++ b) = metadata_lines a ++ metadata_lines b := by
  simp [metadata_lines, List.filterMap_append]

/-- The lines printed for a table of names and an array of values of the same
length are the present values, each with its name, in table order. -/
theorem metadata_lines_range (names : List String) (values : List (Option String))
    (h : names.length = values.length) :
    metadata_lines ((List.range names.length).filterMap fun i =>
      match values.getD i none with
      | some v => some (Event.printf "    %s: %s\n" [PArg.str names[i]?, PArg.str (some v)])
      | none => none)
    = (names.zip values).filterMap fun p => p.2.map fun v => (some p.1, some v) := by
  induction names generalizing values with
  | nil => simp [metadata_lines]
  | cons a names ih =>
    cases values with
    | nil => simp at h
    | cons v values =>
      have hl : names.length = values.length := by simpa using h
      have ih2 := ih values hl
      have hf : ∀ w : Option String,
          ((fun i =>
            match (w :: values).getD i none with
            | some v =>
              some (Event.printf "    %s: %s\n" [PArg.str (a :: names)[i]?, PArg.str (some v)])
            | none => none) ∘ Nat.succ)
          = fun i =>
            match values.getD i none with
            | some v => some (Event.printf "    %s: %s\n" [PArg.str names[i]?, PArg.str (some v)])
            | none => none := by
        intro w
        funext i
        simp only [Function.comp, Nat.succ_eq_add_one, List.getD_cons_succ,
          List.getElem?_cons_succ]
      rw [List.length_cons, List.range_succ_eq_map, List.filterMap_cons, List.filterMap_map, hf]
      cases v with
      | none =>
        simp only [List.getD_cons_zero, List.zip_cons_cons, List.filterMap_cons, Option.map_none']
        exact ih2
      | some x =>
        simp only [List.getD_cons_zero, List.zip_cons_cons, List.filterMap_cons, Option.map_some']
        rw [← ih2]
        simp [metadata_lines]

theorem metadata_lines_cover_part {σ : Type} (api : Libmp4 σ) (demux : σ) :
    metadata_lines (print_cover_part api demux).1 = [] := by
  unfold print_cover_part
  simp only []
  split
  · split
    · split <;> rfl
    · rfl
  · rfl

/-- C4. Metadata keys and absence: `metadata_value_name` is the table of the ten
well-known keys, in order; when the query returns 0 with an array of that many
values, `mp4_demux_print_metadata` prints one line per present value, with the
name of its index, in increasing index order, and none for an absent value; when
the query returns another status it prints no metadata line. -/
theorem metadata_keys_and_absence {σ : Type} (api : Libmp4 σ) (demux : σ) :
    metadata_value_name =
      ["artist", "title", "date", "location", "comment", "copyright", "maker", "model",
       "version", "encoder"] ∧
    metadata_value_name.length = MP4_METADATA_VALUE_TYPE_MAX ∧
    ((api.mp4_demux_get_metadata_values demux).1.1 = 0 →
      (api.mp4_demux_get_metadata_values demux).1.2.length = MP4_METADATA_VALUE_TYPE_MAX →
      metadata_lines (mp4_demux_print_metadata api demux).1 =
        (metadata_value_name.zip (api.mp4_demux_get_metadata_values demux).1.2).filterMap
          fun p => p.2.map fun v => (some p.1, some v)) ∧
    ((api.mp4_demux_get_metadata_values demux).1.1 ≠ 0 →
      metadata_lines (mp4_demux_print_metadata api demux).1 = []) := by
  refine ⟨rfl, rfl, ?_, ?_⟩
  · intro h0 hlen
    unfold mp4_demux_print_metadata
    simp only []
    rw [metadata_lines_append, metadata_lines_cover_part, List.append_nil]
    unfold print_metadata_part
    simp only [h0, if_true]
    rw [← List.singleton_append, metadata_lines_append, metadata_lines_append,
      metadata_lines_append]
    have hl : metadata_value_name.length
        = (api.mp4_demux_get_metadata_values demux).1.2.length := by
      rw [hlen]; rfl
    have key := metadata_lines_range metadata_value_name _ hl
    have e : print_metadata_values (api.mp4_demux_get_metadata_values demux).1.2
        = (List.range metadata_value_name.length).filterMap fun i =>
          match (api.mp4_demux_get_metadata_values demux).1.2.getD i none with
          | some v =>
            some (Event.printf "    %s: %s\n"
              [PArg.str metadata_value_name[i]?, PArg.str (some v)])
          | none => none := rfl
    rw [e, key]
    simp [metadata_lines]
  · intro h0
    unfold mp4_demux_print_metadata
    simp only []
    rw [metadata_lines_append, metadata_lines_cover_part, List.append_nil]
    unfold print_metadata_part
    simp only [h0, if_false]
    rfl

end Mp4DemuxTest

namespace Mp4DemuxTest

theorem no_lifecycle_append (a b : List Event) :
    no_lifecycle (a ++ b) = (no_lifecycle a && no_lifecycle b) := by
  simp [no_lifecycle, List.all_append]

theorem no_lifecycle_cons (e : Event) (l : List Event) :
    no_lifecycle (e :: l) = (!is_lifecycle e && no_lifecycle l) := by
  simp [no_lifecycle]

theorem print_track_no_lifecycle (i : Int) (tk : mp4_track_info_t) :
    no_lifecycle (print_track i tk) = true := by
  obtain ⟨id, type, duration, vc, vw, vh, ac, acc, ass, asr, hm, mce, mmf⟩ := tk
  cases type <;> cases hm <;> rfl

theorem print_tracks_loop_no_lifecycle {σ : Type} (api : Libmp4 σ) (todo : Nat) :
    ∀ (i : Int) (demux : σ), no_lifecycle (print_tracks_loop api todo i demux).1 = true := by
  induction todo with
  | zero => intro i demux; rfl
  | succ n ih =>
    intro i demux
    unfold print_tracks_loop
    simp only []
    rw [no_lifecycle_append, no_lifecycle_cons, ih]
    by_cases h : (api.mp4_demux_get_track_info demux i).1.1 = 0
    · simp [h, print_track_no_lifecycle, is_lifecycle]
    · simp [h, is_lifecycle, no_lifecycle]

theorem print_tracks_no_lifecycle {σ : Type} (api : Libmp4 σ) (demux : σ) :
    no_lifecycle (mp4_demux_print_tracks api demux).1 = true := by
  unfold mp4_demux_print_tracks
  simp only []
  rw [no_lifecycle_cons, print_tracks_loop_no_lifecycle]
  rfl

theorem print_metadata_values_no_lifecycle (values : List (Option String)) :
    no_lifecycle (print_metadata_values values) = true := by
  unfold no_lifecycle
  rw [List.all_eq_true]
  intro e he
  obtain ⟨name, v, rfl⟩ := print_metadata_values_printf values e he
  rfl

theorem print_metadata_no_lifecycle {σ : Type} (api : Libmp4 σ) (demux : σ) :
    no_lifecycle (mp4_demux_print_metadata api demux).1 = true := by
  unfold mp4_demux_print_metadata
  simp only []
  rw [no_lifecycle_append]
  have h1 : no_lifecycle (print_metadata_part api demux).1 = true := by
    unfold print_metadata_part
    simp only []
    rw [no_lifecycle_cons]
    split
    · rw [no_lifecycle_append, no_lifecycle_append, print_metadata_values_no_lifecycle]
      rfl
    · rfl
  have h2 : ∀ s, no_lifecycle (print_cover_part api s).1 = true := by
    intro s
    unfold print_cover_part
    simp only []
    split
    · split
      · split <;> rfl
      · rfl
    · rfl
  rw [h1, h2]
  rfl

theorem print_chapters_no_lifecycle {σ : Type} (api : Libmp4 σ) (demux : σ) :
    no_lifecycle (mp4_demux_print_chapters api demux).1 = true := by
  unfold mp4_demux_print_chapters
  simp only []
  rw [no_lifecycle_cons]
  split
  · rw [no_lifecycle_append, no_lifecycle_append]
    have : no_lifecycle
        ((List.range (api.mp4_demux_get_chapters demux).1.2.1).map fun i =>
          Event.printf ("    Chapter #%d time=%" ++ PRIu64 ++ " '%s'\n")
            [PArg.uint ((i + 1) % 2 ^ 32),
             PArg.uint ((api.mp4_demux_get_chapters demux).1.2.2.1.getD i 0),
             PArg.str ((api.mp4_demux_get_chapters demux).1.2.2.2.getD i none)]) = true := by
      unfold no_lifecycle
      rw [List.all_eq_true]
      intro e he
      rw [List.mem_map] at he
      obtain ⟨i, _, rfl⟩ := he
      rfl
    rw [this]
    rfl
  · rfl

/-- The library calls of a run without lifecycle calls are all queries. -/
theorem queries_of_no_lifecycle (tr : List Event) (h : no_lifecycle tr = true) :
    ∀ e ∈ tr.filter is_library_call, is_query e = true := by
  intro e he
  rw [List.mem_filter] at he
  unfold no_lifecycle at h
  rw [List.all_eq_true] at h
  have h1 := h e he.1
  have h2 := he.2
  unfold is_library_call at h2
  cases hl : is_lifecycle e
  · simpa [hl] using h2
  · simp [hl] at h1

/-- C10. Session lifecycle and exit status of `main`: with no file argument it
exits with -1 and makes no library call; otherwise it calls `mp4_demux_open`
once, first; when that gives no session it makes no other library call and exits
with -1; when it gives a session the remaining library calls are queries
followed by exactly one `mp4_demux_close`, last, and the exit status is 0
exactly when close returned 0, and -1 when close returned a negative value. -/
theorem main_lifecycle {σ : Type} (api : Libmp4 σ) (argv : List String) :
    (argv.length < 2 →
      (main api argv).1 = -1 ∧ (main api argv).2.filter is_library_call = []) ∧
    (2 ≤ argv.length →
      (api.mp4_demux_open (argv.getD 1 "") = none →
        (main api argv).1 = -1 ∧
        (main api argv).2.filter is_library_call
          = [Event.open_call (argv.getD 1 "") false]) ∧
      (∀ d, api.mp4_demux_open (argv.getD 1 "") = some d →
        ∃ queries ret,
          (main api argv).2.filter is_library_call
            = Event.open_call (argv.getD 1 "") true :: queries ++ [Event.close_call ret] ∧
          (∀ e ∈ queries, is_query e = true) ∧
          ((main api argv).1 = 0 ↔ ret = 0) ∧
          (ret < 0 → (main api argv).1 = -1))) := by
  refine ⟨?_, ?_⟩
  · intro h
    have h2 : ((argv.length : Nat) : Int) < 2 := by exact_mod_cast h
    unfold main
    simp only [h2, if_true]
    constructor <;> first | rfl | trivial
  · intro h
    have h2 : ¬ ((argv.length : Nat) : Int) < 2 := by
      intro hc
      have : argv.length < 2 := by exact_mod_cast hc
      omega
    refine ⟨?_, ?_⟩
    · intro hopen
      unfold main
      simp only [h2, if_false, hopen]
      constructor <;> first | rfl | trivial
    · intro d hopen
      unfold main
      simp only [h2, if_false, hopen]
      generalize ht : mp4_demux_print_tracks api d = t
      generalize hm : mp4_demux_print_metadata api t.2 = m
      generalize hc : mp4_demux_print_chapters api m.2 = c
      have hq : no_lifecycle (t.1 ++ m.1 ++ c.1) = true := by
        rw [no_lifecycle_append, no_lifecycle_append, ← ht, ← hm, ← hc,
          print_tracks_no_lifecycle, print_metadata_no_lifecycle, print_chapters_no_lifecycle]
        rfl
      refine ⟨(t.1 ++ m.1 ++ c.1).filter is_library_call, api.mp4_demux_close c.2, ?_, ?_, ?_, ?_⟩
      · by_cases hr : api.mp4_demux_close c.2 < 0
        · simp [hr, List.filter_append, List.filter_cons, is_library_call, is_lifecycle,
            is_query]
        · simp [hr, List.filter_append, List.filter_cons, is_library_call, is_lifecycle,
            is_query]
      · exact queries_of_no_lifecycle _ hq
      · by_cases hr : api.mp4_demux_close c.2 < 0
        · simp only [hr, if_true]
          constructor
          · intro h0; exact absurd h0 (by decide)
          · intro h0; omega
        · simp only [hr, if_false]
      · intro hr
        simp only [hr, if_true]

end Mp4DemuxTest

namespace Mp4DemuxTest

theorem next_sample_calls_append (a b : List Event) :
    next_sample_calls (a ++ b) = next_sample_calls a ++ next_sample_calls b := by
  simp [next_sample_calls, List.filterMap_append]

/-- The search loop of `mp4_demux_print_frames`: it asks for the tracks in
increasing index order from `i` on, stops at the first call that returns 0 with
type video and gives that track's id, and gives none when no call does. -/
theorem find_video_track_spec {σ : Type} (api : Libmp4 σ) (todo : Nat) :
    ∀ (i : Int) (demux : σ),
      (∀ id, (find_video_track api todo i demux).1.1 = some id →
        ∃ pre tk,
          (find_video_track api todo i demux).1.2
            = pre ++ [Event.get_track_info (i + pre.length) 0 tk] ∧
          tk.type = mp4_track_type.MP4_TRACK_TYPE_VIDEO ∧ tk.id = id ∧
          pre.length < todo ∧ ∀ e ∈ pre, is_video_hit e = false) ∧
      ((find_video_track api todo i demux).1.1 = none →
        (find_video_track api todo i demux).1.2.length = todo ∧
        ∀ e ∈ (find_video_track api todo i demux).1.2, is_video_hit e = false) ∧
      (find_video_track api todo i demux).1.2.map track_info_index
        = (List.range (find_video_track api todo i demux).1.2.length).map
            (fun (k : Nat) => some (i + (k : Int))) ∧
      next_sample_calls (find_video_track api todo i demux).1.2 = [] ∧
      (∀ e ∈ (find_video_track api todo i demux).1.2, is_stderr e = false) := by
  induction todo with
  | zero =>
    intro i demux
    refine ⟨?_, ?_, ?_, ?_, ?_⟩
    · intro id h; simp [find_video_track] at h
    · intro _; simp [find_video_track]
    · simp [find_video_track]
    · rfl
    · simp [find_video_track]
  | succ n ih =>
    intro i demux
    unfold find_video_track
    simp only []
    generalize hr : api.mp4_demux_get_track_info demux i = r
    obtain ⟨⟨ret, tk⟩, s1⟩ := r
    simp only []
    by_cases hit : ret = 0 ∧ tk.type = mp4_track_type.MP4_TRACK_TYPE_VIDEO
    · simp only [hit, and_self, if_true]
      refine ⟨?_, ?_, ?_, ?_, ?_⟩
      · intro id h
        refine ⟨[], tk, ?_, hit.2, ?_, ?_, ?_⟩
        · simp [hit.1]
        · simpa using h
        · simp
        · simp
      · intro h; simp at h
      · simp [track_info_index, List.range_succ]
      · rfl
      · simp [is_stderr]
    · simp only [hit, if_false]
      obtain ⟨h1, h2, h3, h4, h5⟩ := ih (i + 1) s1
      have hnot : is_video_hit (Event.get_track_info i ret tk) = false := by
        simp only [is_video_hit, decide_eq_false_iff_not]
        exact hit
      refine ⟨?_, ?_, ?_, ?_, ?_⟩
      · intro id h
        obtain ⟨pre, tk2, e1, e2, e3, e4, e5⟩ := h1 id h
        refine ⟨Event.get_track_info i ret tk :: pre, tk2, ?_, e2, e3, ?_, ?_⟩
        · have hidx : i + 1 + (pre.length : Int)
              = i + (((Event.get_track_info i ret tk :: pre).length : Nat) : Int) := by
            rw [List.length_cons]; push_cast; ring
          rw [e1, hidx]
          rfl
        · simp only [List.length_cons]; omega
        · intro e he
          rcases List.mem_cons.mp he with rfl | he
          · exact hnot
          · exact e5 e he
      · intro h
        obtain ⟨e1, e2⟩ := h2 h
        refine ⟨by simp [e1], ?_⟩
        intro e he
        rcases List.mem_cons.mp he with rfl | he
        · exact hnot
        · exact e2 e he
      · simp only [List.map_cons, List.length_cons, List.range_succ_eq_map, List.map_map]
        rw [h3]
        simp only [track_info_index, Nat.cast_zero, add_zero, List.cons.injEq, true_and]
        apply List.map_congr_left
        intro k _
        simp only [Function.comp, Nat.succ_eq_add_one, Nat.cast_add, Nat.cast_one]
        congr 1
        omega
      · simp only [next_sample_calls, List.filterMap_cons] at h4 ⊢
        exact h4
      · intro e he
        rcases List.mem_cons.mp he with rfl | he
        · rfl
        · exact h5 e he

/-- The `do ... while` loop of `mp4_demux_print_frames` over a track that yields the
samples `samples` of non-zero size and then the zero-size sample `last`: with
enough fuel it ends, after one call per sample and one for `last`, and writes
nothing to the error stream. -/
theorem print_frames_loop_spec {σ : Type} (api : Libmp4 σ) (id : Nat)
    (samples : List mp4_track_sample_t) (last : mp4_track_sample_t)
    (hlast : last.sample_size = 0) :
    ∀ (fuel : Nat) (i : Int) (demux : σ),
      (∀ x ∈ samples, x.sample_size ≠ 0) →
      yields api id demux (samples ++ [last]) = true →
      samples.length + 1 ≤ fuel →
      ∃ tr s, print_frames_loop api id fuel i demux = some (tr, s) ∧
        next_sample_calls tr = (samples ++ [last]).map (fun x => (id, (0 : Int), x)) ∧
        ∀ e ∈ tr, is_stderr e = false := by
  induction samples with
  | nil =>
    intro fuel i demux _ hy hf
    obtain ⟨f, rfl⟩ : ∃ f, fuel = f + 1 := ⟨fuel - 1, by simp at hf; omega⟩
    simp only [List.nil_append, yields, Bool.and_true, decide_eq_true_eq] at hy
    unfold print_frames_loop
    simp only [hy, hlast, ne_eq, not_true_eq_false, if_false, if_true]
    refine ⟨_, _, rfl, ?_, ?_⟩
    · simp [next_sample_calls]
    · intro e he
      simp at he
      rcases he with rfl | rfl <;> rfl
  | cons x xs ih =>
    intro fuel i demux hnz hy hf
    obtain ⟨f, rfl⟩ : ∃ f, fuel = f + 1 := ⟨fuel - 1, by simp at hf; omega⟩
    simp only [List.cons_append, yields, Bool.and_eq_true, decide_eq_true_eq] at hy
    obtain ⟨hcall, hrest⟩ := hy
    have hx : x.sample_size ≠ 0 := hnz x (List.mem_cons_self _ _)
    have hf2 : xs.length + 1 ≤ f := by simp at hf; omega
    obtain ⟨tr, s, htr, hcalls, herr⟩ :=
      ih f (i + 1) (api.mp4_demux_get_track_next_sample demux id true 0 true 0).2
        (fun y hy => hnz y (List.mem_cons_of_mem _ hy)) hrest hf2
    unfold print_frames_loop
    simp only [hcall, hx, ne_eq, not_false_eq_true, if_true, htr, Option.map_some']
    refine ⟨_, _, rfl, ?_, ?_⟩
    · rw [← List.singleton_append, next_sample_calls_append, next_sample_calls_append, hcalls]
      simp [next_sample_calls]
    · intro e he
      simp at he
      rcases he with rfl | rfl | he
      · rfl
      · rfl
      · exact herr e he

end Mp4DemuxTest

namespace Mp4DemuxTest

/-- C5. End of track by zero-size sample. `mp4_demux_print_frames` asks for the
tracks in index order 0, 1, ... and stops at the first whose info call returns 0
with type video; when there is none (after `count` calls) it returns without
calling `mp4_demux_get_track_next_sample`; when there is one and the successive
calls on its id return 0 and yield `n` samples of non-zero size followed by a
zero-size sample, then with enough fuel the loop ends after exactly `n + 1`
calls, all on that id, and writes nothing to the error stream. -/
theorem end_of_track_by_zero_size {σ : Type} (api : Libmp4 σ) (demux : σ) :
    (video_track_search api demux).1.2.map track_info_index
      = (List.range (video_track_search api demux).1.2.length).map
          (fun (k : Nat) => some (k : Int)) ∧
    ((video_track_search api demux).1.1 = none →
      ((video_track_search api demux).1.2.length : Int)
        = max (api.mp4_demux_get_track_count demux).1 0 ∧
      (∀ e ∈ (video_track_search api demux).1.2, is_video_hit e = false) ∧
      ∀ fuel, ∃ tr s, mp4_demux_print_frames api fuel demux = some (tr, s) ∧
        next_sample_calls tr = []) ∧
    (∀ id, (video_track_search api demux).1.1 = some id →
      (∃ pre tk,
        (video_track_search api demux).1.2 = pre ++ [Event.get_track_info pre.length 0 tk] ∧
        tk.type = mp4_track_type.MP4_TRACK_TYPE_VIDEO ∧ tk.id = id ∧
        (pre.length : Int) < (api.mp4_demux_get_track_count demux).1 ∧
        ∀ e ∈ pre, is_video_hit e = false) ∧
      ∀ (samples : List mp4_track_sample_t) (last : mp4_track_sample_t) (fuel : Nat),
        (∀ x ∈ samples, x.sample_size ≠ 0) → last.sample_size = 0 →
        yields api id (video_track_search api demux).2 (samples ++ [last]) = true →
        samples.length + 1 ≤ fuel →
        ∃ tr s, mp4_demux_print_frames api fuel demux = some (tr, s) ∧
          next_sample_calls tr = (samples ++ [last]).map (fun x => (id, (0 : Int), x)) ∧
          (next_sample_calls tr).length = samples.length + 1 ∧
          ∀ e ∈ tr, is_stderr e = false) := by
  have hdef : video_track_search api demux
      = find_video_track api (api.mp4_demux_get_track_count demux).1.toNat 0
          (api.mp4_demux_get_track_count demux).2 := rfl
  obtain ⟨h1, h2, h3, h4, h5⟩ :=
    find_video_track_spec api (api.mp4_demux_get_track_count demux).1.toNat 0
      (api.mp4_demux_get_track_count demux).2
  rw [← hdef] at h1 h2 h3 h4 h5
  have hpf : ∀ fuel, mp4_demux_print_frames api fuel demux
      = match (video_track_search api demux).1.1 with
        | none => some (Event.get_track_count (api.mp4_demux_get_track_count demux).1 ::
            (video_track_search api demux).1.2, (video_track_search api demux).2)
        | some id =>
          (print_frames_loop api id fuel 0 (video_track_search api demux).2).map fun r =>
            (Event.get_track_count (api.mp4_demux_get_track_count demux).1 ::
              (video_track_search api demux).1.2 ++ r.1 ++ [Event.printf "\n" []], r.2) :=
    fun _ => rfl
  refine ⟨?_, ?_, ?_⟩
  · rw [h3]
    simp
  · intro hnone
    obtain ⟨e1, e2⟩ := h2 hnone
    refine ⟨?_, e2, ?_⟩
    · rw [e1]; omega
    · intro fuel
      refine ⟨Event.get_track_count (api.mp4_demux_get_track_count demux).1 ::
          (video_track_search api demux).1.2, (video_track_search api demux).2, ?_, ?_⟩
      · rw [hpf, hnone]
      rw [← List.singleton_append, next_sample_calls_append, h4]
      rfl
  · intro id hsome
    refine ⟨?_, ?_⟩
    · obtain ⟨pre, tk, e1, e2, e3, e4, e5⟩ := h1 id hsome
      refine ⟨pre, tk, ?_, e2, e3, ?_, e5⟩
      · rw [e1]; simp
      · omega
    · intro samples last fuel hnz hz hy hf
      obtain ⟨tr, s, htr, hcalls, herr⟩ :=
        print_frames_loop_spec api id samples last hz fuel 0 _ hnz hy hf
      refine ⟨Event.get_track_count (api.mp4_demux_get_track_count demux).1 ::
          (video_track_search api demux).1.2 ++ tr ++ [Event.printf "\n" []], s, ?_, ?_, ?_, ?_⟩
      · rw [hpf, hsome]
        simp only [htr, Option.map_some']
      · rw [next_sample_calls_append, next_sample_calls_append, ← List.singleton_append,
          next_sample_calls_append, h4, hcalls]
        simp [next_sample_calls]
      · rw [next_sample_calls_append, next_sample_calls_append, ← List.singleton_append,
          next_sample_calls_append, h4, hcalls]
        simp [next_sample_calls]
      · intro e he
        simp only [List.mem_append, List.mem_cons, List.mem_singleton, List.not_mem_nil,
          or_false] at he
        rcases he with (((rfl | he) | he) | rfl)
        · rfl
        · exact h5 e he
        · exact herr e he
        · rfl

end Mp4DemuxTest

/-! ## Properties of the sample table decoder -/

namespace SampleTable

theorem cumulative_times_length (ds : List Nat) :
    ∀ t, (cumulative_times t ds).length = ds.length := by
  induction ds with
  | nil => intro t; rfl
  | cons d ds ih => intro t; simp [cumulative_times, ih]

theorem stts_expand_length (runs : List stts_run) :
    (stts_expand runs).length = (runs.map stts_run.count).sum := by
  induction runs with
  | nil => rfl
  | cons r rs ih => simp [stts_expand, ih]

theorem stts_expand_bound (runs : List stts_run) (h : ∀ r ∈ runs, r.delta < 2 ^ 32) :
    ∀ d ∈ stts_expand runs, d ≤ 4294967295 := by
  induction runs with
  | nil => intro d hd; simp [stts_expand] at hd
  | cons r rs ih =>
    intro d hd
    simp only [stts_expand, List.mem_append, List.mem_replicate] at hd
    rcases hd with ⟨_, rfl⟩ | hd
    · have := h r (List.mem_cons_self _ _)
      omega
    · exact ih (fun r hr => h r (List.mem_cons_of_mem _ hr)) d hd

/-- Without wrap-around, the decode time at index `j` is the start time plus the
deltas before `j`. -/
theorem cumulative_times_getElem (ds : List Nat) :
    ∀ t, (∀ d ∈ ds, d ≤ 4294967295) → t + (ds.length - 1) * 4294967295 < 2 ^ 64 →
      ∀ j, j < ds.length → (cumulative_times t ds)[j]? = some (t + (ds.take j).sum) := by
  induction ds with
  | nil => intro t _ _ j hj; simp at hj
  | cons d ds ih =>
    intro t hd hb j hj
    cases j with
    | zero => simp [cumulative_times]
    | succ j =>
      have hj2 : j < ds.length := by simpa using hj
      have hd1 : d ≤ 4294967295 := hd d (List.mem_cons_self _ _)
      have hlen : (d :: ds).length - 1 = ds.length := by simp
      rw [hlen] at hb
      have hlt : t + d < 2 ^ 64 := by omega
      have hb2 : (t + d) % 2 ^ 64 + (ds.length - 1) * 4294967295 < 2 ^ 64 := by
        rw [Nat.mod_eq_of_lt hlt]; omega
      have := ih ((t + d) % 2 ^ 64) (fun x hx => hd x (List.mem_cons_of_mem _ hx)) hb2 j hj2
      simp only [cumulative_times, List.getElem?_cons_succ, List.take_succ_cons, List.sum_cons]
      rw [this, Nat.mod_eq_of_lt hlt, Nat.add_assoc]

/-- Without wrap-around, the decode times never decrease. -/
theorem cumulative_times_sorted (ds : List Nat) :
    ∀ t, (∀ d ∈ ds, d ≤ 4294967295) → t + (ds.length - 1) * 4294967295 < 2 ^ 64 →
      (∀ x ∈ cumulative_times t ds, t ≤ x) ∧
      List.Pairwise (fun a b => a ≤ b) (cumulative_times t ds) := by
  induction ds with
  | nil => intro t _ _; simp [cumulative_times]
  | cons d ds ih =>
    intro t hd hb
    have hd1 : d ≤ 4294967295 := hd d (List.mem_cons_self _ _)
    have hlen : (d :: ds).length - 1 = ds.length := by simp
    rw [hlen] at hb
    cases ds with
    | nil => simp [cumulative_times]
    | cons d2 ds2 =>
      have hpos : 1 ≤ (d2 :: ds2).length := by simp
      have hlt : t + d < 2 ^ 64 := by omega
      have hb2 : (t + d) % 2 ^ 64 + ((d2 :: ds2).length - 1) * 4294967295 < 2 ^ 64 := by
        rw [Nat.mod_eq_of_lt hlt]; omega
      obtain ⟨h1, h2⟩ :=
        ih ((t + d) % 2 ^ 64) (fun x hx => hd x (List.mem_cons_of_mem _ hx)) hb2
      rw [Nat.mod_eq_of_lt hlt] at h1 h2
      have hunf : cumulative_times t (d :: d2 :: ds2)
          = t :: cumulative_times ((t + d) % 2 ^ 64) (d2 :: ds2) := rfl
      rw [hunf, Nat.mod_eq_of_lt hlt]
      refine ⟨?_, ?_⟩
      · intro x hx
        rcases List.mem_cons.mp hx with rfl | hx
        · exact le_refl _
        · have := h1 x hx; omega
      · rw [List.pairwise_cons]
        refine ⟨?_, h2⟩
        intro x hx
        have := h1 x hx; omega

/-- C6, as the decoder computes it. For an `stts` run list of 32-bit deltas with at
most 2^32 samples in all, there is one decode time per sample, the decode time
of sample `j` is the sum of the deltas of the `j` samples before it in table
order, the first one is 0 and the sequence never decreases; for the runs
`[(3,1000),(2,2000)]` the decode times are `[0,1000,2000,3000,5000]`. -/
theorem decode_times_running_sum (runs : List stts_run)
    (hdelta : ∀ r ∈ runs, r.delta < 2 ^ 32)
    (hcount : (runs.map stts_run.count).sum ≤ 2 ^ 32) :
    (decode_times runs).length = (runs.map stts_run.count).sum ∧
    (∀ j, j < (runs.map stts_run.count).sum →
      (decode_times runs)[j]? = some ((stts_expand runs).take j).sum) ∧
    (0 < (runs.map stts_run.count).sum → (decode_times runs)[0]? = some 0) ∧
    List.Pairwise (fun a b => a ≤ b) (decode_times runs) ∧
    decode_times [⟨3, 1000⟩, ⟨2, 2000⟩] = [0, 1000, 2000, 3000, 5000] := by
  have hlen := stts_expand_length runs
  have hb := stts_expand_bound runs hdelta
  have hfit : 0 + ((stts_expand runs).length - 1) * 4294967295 < 2 ^ 64 := by
    rw [hlen]; omega
  have hget : ∀ j, j < (runs.map stts_run.count).sum →
      (decode_times runs)[j]? = some ((stts_expand runs).take j).sum := by
    intro j hj
    have := cumulative_times_getElem (stts_expand runs) 0 hb hfit j (by rw [hlen]; exact hj)
    simpa [decode_times] using this
  refine ⟨?_, hget, ?_, ?_, by decide⟩
  · unfold decode_times
    rw [cumulative_times_length, hlen]
  · intro h0
    simpa using hget 0 h0
  · exact (cumulative_times_sorted (stts_expand runs) 0 hb hfit).2

/-- The decode times of the runs `[(3,1000),(2,2000)]`. -/
theorem decode_times_running_sum_witness :
    (∀ r ∈ [(⟨3, 1000⟩ : stts_run), ⟨2, 2000⟩], r.delta < 2 ^ 32) ∧
    (([⟨3, 1000⟩, ⟨2, 2000⟩] : List stts_run).map stts_run.count).sum ≤ 2 ^ 32 ∧
    (decode_times [⟨3, 1000⟩, ⟨2, 2000⟩]).length
      = (([⟨3, 1000⟩, ⟨2, 2000⟩] : List stts_run).map stts_run.count).sum ∧
    (∀ j, j < (([⟨3, 1000⟩, ⟨2, 2000⟩] : List stts_run).map stts_run.count).sum →
      (decode_times [⟨3, 1000⟩, ⟨2, 2000⟩])[j]?
        = some ((stts_expand [⟨3, 1000⟩, ⟨2, 2000⟩]).take j).sum) ∧
    (0 < (([⟨3, 1000⟩, ⟨2, 2000⟩] : List stts_run).map stts_run.count).sum →
      (decode_times [⟨3, 1000⟩, ⟨2, 2000⟩])[0]? = some 0) ∧
    List.Pairwise (fun a b => a ≤ b) (decode_times [⟨3, 1000⟩, ⟨2, 2000⟩]) ∧
    decode_times [⟨3, 1000⟩, ⟨2, 2000⟩] = [0, 1000, 2000, 3000, 5000] :=
  ⟨by decide, by decide, decode_times_running_sum [⟨3, 1000⟩, ⟨2, 2000⟩] (by decide) (by decide)⟩

/-- C6, as stated, fails on its own example: for the runs `[(3,1000),(2,2000)]` the
three samples before sample 3 have deltas summing to 3000, the decode times are
`[0,1000,2000,3000,5000]`, and they are not `[0,1000,2000,5000,7000]`. -/
theorem decode_times_example_refuted :
    ((stts_expand [⟨3, 1000⟩, ⟨2, 2000⟩]).take 3).sum = 3000 ∧
    (decode_times [⟨3, 1000⟩, ⟨2, 2000⟩])[3]? = some 3000 ∧
    decode_times [⟨3, 1000⟩, ⟨2, 2000⟩] ≠ [0, 1000, 2000, 5000, 7000] := by
  decide

end SampleTable

namespace SampleTable

theorem layout_chunk_some (sizes : List Nat) :
    ∀ cursor, cursor + sizes.sum < 2 ^ 64 → ∃ a, layout_chunk cursor sizes = some a := by
  induction sizes with
  | nil => intro cursor _; exact ⟨[], rfl⟩
  | cons size sizes ih =>
    intro cursor h
    simp only [List.sum_cons] at h
    have h1 : cursor + size < 2 ^ 64 := by omega
    obtain ⟨a, ha⟩ := ih (cursor + size) (by omega)
    refine ⟨cursor :: a, ?_⟩
    unfold layout_chunk
    rw [if_pos h1, ha]
    rfl

theorem layout_chunk_spec (sizes : List Nat) :
    ∀ cursor a, layout_chunk cursor sizes = some a →
      a.length = sizes.length ∧
      ∀ i, i < sizes.length → a[i]? = some (cursor + (sizes.take i).sum) := by
  induction sizes with
  | nil =>
    intro cursor a h
    simp only [layout_chunk, Option.some.injEq] at h
    subst h
    simp
  | cons size sizes ih =>
    intro cursor a h
    unfold layout_chunk at h
    split at h
    · cases hr : layout_chunk (cursor + size) sizes with
      | none => simp [hr] at h
      | some rest =>
        simp only [hr, Option.map_some', Option.some.injEq] at h
        subst h
        obtain ⟨h1, h2⟩ := ih (cursor + size) rest hr
        refine ⟨by simp [h1], ?_⟩
        intro i hi
        cases i with
        | zero => simp
        | succ i =>
          have hi2 : i < sizes.length := by simpa using hi
          simp only [List.getElem?_cons_succ, List.take_succ_cons, List.sum_cons]
          rw [h2 i hi2, Nat.add_assoc]
    · simp at h

theorem chunk_start_cons (n : Nat) (counts : List Nat) (c : Nat) :
    chunk_start (n :: counts) (c + 1) = n + chunk_start counts c := by
  simp [chunk_start]

theorem chunk_start_le (counts : List Nat) :
    ∀ c n, counts[c]? = some n → chunk_start counts c + n ≤ counts.sum := by
  induction counts with
  | nil => intro c n h; simp at h
  | cons m counts ih =>
    intro c n h
    cases c with
    | zero =>
      simp only [List.getElem?_cons_zero, Option.some.injEq] at h
      subst h
      simp [chunk_start]
    | succ c =>
      simp only [List.getElem?_cons_succ] at h
      have := ih c n h
      rw [chunk_start_cons, List.sum_cons]
      omega

/-- What a successful layout looks like: the tables agree in length and count, and
sample `i` of chunk `c` lies at the chunk's offset plus the sizes of the samples
of the chunk before it. -/
theorem layout_chunks_spec (counts : List Nat) :
    ∀ offsets sizes offs, layout_chunks counts offsets sizes = some offs →
      counts.length = offsets.length ∧ counts.sum = sizes.length ∧
      offs.length = sizes.length ∧
      ∀ c n offset i, counts[c]? = some n → offsets[c]? = some offset → i < n →
        offs[chunk_start counts c + i]?
          = some (offset + ((sizes.drop (chunk_start counts c)).take i).sum) := by
  induction counts with
  | nil =>
    intro offsets sizes offs h
    cases offsets with
    | nil =>
      cases sizes with
      | nil =>
        simp only [layout_chunks, Option.some.injEq] at h
        subst h
        simp
      | cons _ _ => simp [layout_chunks] at h
    | cons _ _ => simp [layout_chunks] at h
  | cons n counts ih =>
    intro offsets sizes offs h
    cases offsets with
    | nil => simp [layout_chunks] at h
    | cons offset offsets =>
      unfold layout_chunks at h
      split at h
      · rename_i hn
        cases ha : layout_chunk offset (sizes.take n) with
        | none => simp [ha] at h
        | some a =>
          cases hb : layout_chunks counts offsets (sizes.drop n) with
          | none => simp [ha, hb] at h
          | some b =>
            simp only [ha, hb, Option.some.injEq] at h
            subst h
            obtain ⟨a1, a2⟩ := layout_chunk_spec _ _ _ ha
            obtain ⟨b1, b2, b3, b4⟩ := ih _ _ _ hb
            have hal : a.length = n := by
              rw [a1, List.length_take]; omega
            rw [List.length_drop] at b2 b3
            refine ⟨by simp [b1], by rw [List.sum_cons]; omega,
              by rw [List.length_append]; omega, ?_⟩
            intro c m off i hc ho hi
            cases c with
            | zero =>
              simp only [List.getElem?_cons_zero, Option.some.injEq] at hc ho
              subst hc ho
              have hi2 : i < (sizes.take n).length := by rw [← a1, hal]; exact hi
              have e0 : chunk_start (n :: counts) 0 = 0 := rfl
              rw [e0, Nat.zero_add, List.getElem?_append_left (by omega), a2 i hi2,
                List.take_take, List.drop_zero, Nat.min_eq_left (by omega)]
            | succ c =>
              simp only [List.getElem?_cons_succ] at hc ho
              rw [chunk_start_cons, Nat.add_assoc,
                List.getElem?_append_right (by omega), hal, Nat.add_sub_cancel_left,
                b4 c m off i hc ho hi, List.drop_drop]
      · simp at h

/-- When the tables agree in length and count and no chunk runs past 64 bits, the
layout succeeds. -/
theorem layout_chunks_some (counts : List Nat) :
    ∀ offsets sizes, counts.length = offsets.length → counts.sum = sizes.length →
      (∀ c n offset, counts[c]? = some n → offsets[c]? = some offset →
        offset + ((sizes.drop (chunk_start counts c)).take n).sum < 2 ^ 64) →
      ∃ offs, layout_chunks counts offsets sizes = some offs := by
  induction counts with
  | nil =>
    intro offsets sizes h1 h2 _
    cases offsets with
    | nil =>
      cases sizes with
      | nil => exact ⟨[], rfl⟩
      | cons _ _ => simp at h2
    | cons _ _ => simp at h1
  | cons n counts ih =>
    intro offsets sizes h1 h2 h3
    cases offsets with
    | nil => simp at h1
    | cons offset offsets =>
      rw [List.sum_cons] at h2
      have hn : n ≤ sizes.length := by omega
      have h0 := h3 0 n offset (by simp) (by simp)
      have e0 : chunk_start (n :: counts) 0 = 0 := rfl
      rw [e0, List.drop_zero] at h0
      obtain ⟨a, ha⟩ := layout_chunk_some (sizes.take n) offset h0
      obtain ⟨b, hb⟩ := ih offsets (sizes.drop n) (by simpa using h1)
        (by rw [List.length_drop]; omega)
        (by
          intro c m off hc ho
          have := h3 (c + 1) m off (by simpa using hc) (by simpa using ho)
          rw [chunk_start_cons, ← List.drop_drop] at this
          exact this)
      exact ⟨a ++ b, by simp [layout_chunks, hn, ha, hb]⟩

end SampleTable

namespace SampleTable

/-- C7. Sample byte offsets are laid out chunk by chunk. For tables whose expanded
per-chunk sample counts add up to the number of sizes: the layout succeeds when
no chunk runs past 64 bits; whenever it succeeds there is one offset per sample,
the first sample of each chunk is at the chunk's offset and each further sample
of the chunk is at the previous sample's offset plus the previous sample's size;
for `stsc` `[(1,2,1)]` over chunk offsets `[100,500]` with sizes `[10,10,10,10]`
the sample offsets are `[100,110,500,510]`. -/
theorem sample_offsets_chunk_by_chunk (stsc : List stsc_run) (chunk_offsets sizes : List Nat)
    (hsum : (stsc_expand stsc chunk_offsets.length).sum = sizes.length) :
    ((∀ c n offset, (stsc_expand stsc chunk_offsets.length)[c]? = some n →
        chunk_offsets[c]? = some offset →
        offset + ((sizes.drop (chunk_start (stsc_expand stsc chunk_offsets.length) c)).take
          n).sum < 2 ^ 64) →
      ∃ offs, sample_offsets stsc chunk_offsets sizes = some offs) ∧
    (∀ offs, sample_offsets stsc chunk_offsets sizes = some offs →
      offs.length = sizes.length ∧
      ∀ c n offset, (stsc_expand stsc chunk_offsets.length)[c]? = some n →
        chunk_offsets[c]? = some offset →
        (0 < n →
          offs[chunk_start (stsc_expand stsc chunk_offsets.length) c]? = some offset) ∧
        ∀ i, 0 < i → i < n →
          ∃ prev size,
            offs[chunk_start (stsc_expand stsc chunk_offsets.length) c + i - 1]? = some prev ∧
            sizes[chunk_start (stsc_expand stsc chunk_offsets.length) c + i - 1]? = some size ∧
            offs[chunk_start (stsc_expand stsc chunk_offsets.length) c + i]?
              = some (prev + size)) ∧
    sample_offsets [⟨1, 2, 1⟩] [100, 500] [10, 10, 10, 10] = some [100, 110, 500, 510] := by
  have hlen : (stsc_expand stsc chunk_offsets.length).length = chunk_offsets.length := by
    simp [stsc_expand]
  refine ⟨?_, ?_, by decide⟩
  · intro h
    exact layout_chunks_some _ _ _ hlen hsum h
  · intro offs h
    obtain ⟨_, _, h3, h4⟩ := layout_chunks_spec _ _ _ _ h
    refine ⟨h3, ?_⟩
    intro c n offset hc ho
    refine ⟨?_, ?_⟩
    · intro hn
      have := h4 c n offset 0 hc ho hn
      simpa using this
    · intro i hi0 hin
      obtain ⟨k, rfl⟩ : ∃ k, i = k + 1 := ⟨i - 1, by omega⟩
      have hk := h4 c n offset k hc ho (by omega)
      have hk1 := h4 c n offset (k + 1) hc ho hin
      have hle := chunk_start_le _ c n hc
      have hsz : chunk_start (stsc_expand stsc chunk_offsets.length) c + k < sizes.length := by
        omega
      obtain ⟨size, hsize⟩ :
          ∃ size, sizes[chunk_start (stsc_expand stsc chunk_offsets.length) c + k]? = some size :=
        ⟨_, List.getElem?_eq_getElem hsz⟩
      have hidx : chunk_start (stsc_expand stsc chunk_offsets.length) c + (k + 1) - 1
          = chunk_start (stsc_expand stsc chunk_offsets.length) c + k := by omega
      rw [hidx]
      refine ⟨_, size, hk, hsize, ?_⟩
      rw [hk1, List.take_succ, List.getElem?_drop, hsize]
      simp [Nat.add_assoc]

/-- The layout of the `stsc` run `(1,2,1)` over chunk offsets `[100,500]` with sizes
`[10,10,10,10]`. -/
theorem sample_offsets_chunk_by_chunk_witness :
    (stsc_expand [⟨1, 2, 1⟩] ([100, 500] : List Nat).length).sum
      = ([10, 10, 10, 10] : List Nat).length ∧
    (∀ offs, sample_offsets [⟨1, 2, 1⟩] [100, 500] [10, 10, 10, 10] = some offs →
      offs.length = ([10, 10, 10, 10] : List Nat).length) ∧
    sample_offsets [⟨1, 2, 1⟩] [100, 500] [10, 10, 10, 10] = some [100, 110, 500, 510] :=
  ⟨by decide,
   fun offs h =>
    ((sample_offsets_chunk_by_chunk [⟨1, 2, 1⟩] [100, 500] [10, 10, 10, 10]
      (by decide)).2.1 offs h).1,
   (sample_offsets_chunk_by_chunk [⟨1, 2, 1⟩] [100, 500] [10, 10, 10, 10] (by decide)).2.2⟩

end SampleTable

namespace Mp4DemuxTest

/-- The cover query of the demonstration session: a size query answered 42, then a
fetch with capacity 42, and the cover reported. -/
theorem cover_size_then_fetch_witness :
    cover_calls (mp4_demux_print_metadata demo_api 0).1
      = [(true, 0, 0, 42), (false, 42, 0, 42)] ∧
    cover_reported (mp4_demux_print_metadata demo_api 0).1 = true ∧
    ∃ ret1 size1 rest,
      cover_calls (mp4_demux_print_metadata demo_api 0).1 = (true, 0, ret1, size1) :: rest ∧
      (rest ≠ [] ↔ (ret1 = 0 ∧ 0 < size1 ∧ demo_api.malloc size1 = true)) ∧
      (rest = [] ∨ ∃ ret2 size2, rest = [(false, size1, ret2, size2)]) ∧
      (cover_reported (mp4_demux_print_metadata demo_api 0).1 = true ↔
        ∃ size2, rest = [(false, size1, 0, size2)]) ∧
      ((ret1 ≠ 0 ∨ size1 = 0) →
        rest = [] ∧ cover_reported (mp4_demux_print_metadata demo_api 0).1 = false) :=
  ⟨by decide, by decide, cover_size_then_fetch demo_api 0⟩

/-- The metadata lines of the demonstration session: artist, location and encoder. -/
theorem metadata_keys_and_absence_witness :
    (demo_api.mp4_demux_get_metadata_values 0).1.1 = 0 ∧
    (demo_api.mp4_demux_get_metadata_values 0).1.2.length = MP4_METADATA_VALUE_TYPE_MAX ∧
    metadata_lines (mp4_demux_print_metadata demo_api 0).1
      = [(some "artist", some "me"), (some "location", some "here"),
         (some "encoder", some "enc")] ∧
    metadata_lines (mp4_demux_print_metadata demo_api 0).1 =
      (metadata_value_name.zip (demo_api.mp4_demux_get_metadata_values 0).1.2).filterMap
        fun p => p.2.map fun v => (some p.1, some v) :=
  ⟨by decide, by decide, by decide,
   (metadata_keys_and_absence demo_api 0).2.2.1 (by decide) (by decide)⟩

/-- The frames of the demonstration session: the video track is the second one, it
yields three samples and then a zero-size one, and the loop makes four calls. -/
theorem end_of_track_by_zero_size_witness :
    (video_track_search demo_api 0).1.1 = some 7 ∧
    (∀ x ∈ demo_samples, x.sample_size ≠ 0) ∧ demo_last.sample_size = 0 ∧
    yields demo_api 7 (video_track_search demo_api 0).2 (demo_samples ++ [demo_last]) = true ∧
    ∃ tr s, mp4_demux_print_frames demo_api 4 0 = some (tr, s) ∧
      next_sample_calls tr = (demo_samples ++ [demo_last]).map (fun x => (7, (0 : Int), x)) ∧
      (next_sample_calls tr).length = demo_samples.length + 1 ∧
      ∀ e ∈ tr, is_stderr e = false :=
  ⟨by decide, by decide, by decide, by decide,
   ((end_of_track_by_zero_size demo_api 0).2.2 7 (by decide)).2 demo_samples demo_last 4
     (by decide) (by decide) (by decide) (by decide)⟩

/-- The run of `main` on the demonstration session: one open, queries, one close,
exit status 0. -/
theorem main_lifecycle_witness :
    2 ≤ (["prog", "a.mp4"] : List String).length ∧
    demo_api.mp4_demux_open ((["prog", "a.mp4"] : List String).getD 1 "") = some 0 ∧
    (main demo_api ["prog", "a.mp4"]).1 = 0 ∧
    ∃ queries ret,
      (main demo_api ["prog", "a.mp4"]).2.filter is_library_call
        = Event.open_call ((["prog", "a.mp4"] : List String).getD 1 "") true ::
            queries ++ [Event.close_call ret] ∧
      (∀ e ∈ queries, is_query e = true) ∧
      ((main demo_api ["prog", "a.mp4"]).1 = 0 ↔ ret = 0) ∧
      (ret < 0 → (main demo_api ["prog", "a.mp4"]).1 = -1) :=
  ⟨by decide, by decide, by decide,
   ((main_lifecycle demo_api ["prog", "a.mp4"]).2 (by decide)).2 0 (by decide)⟩

end Mp4DemuxTest
